import Mathlib

/-!
# Verification of the gentify Workflow Orchestrator

A shallow embedding of `src/code_dev_assistant/workflow_orchestrator.py`
(class `WorkflowOrchestrator`), covering the scheduler loop
`execute_workflow`, the per-step dispatcher `_execute_step`, and the
agent-task handler `_execute_agent_task`.

Modelling choices:
* Handlers are external effectful code (agent calls, file I/O, console input);
  their per-attempt behaviour is an oracle `Env`: `outcome sid k` is what the
  handler of step `sid` produces on its `k`-th attempt (`k` = the step's
  `retry_count` at dispatch time), and `duration sid k` is how long that
  attempt runs (used only by the `asyncio.wait_for` timeout check).
* `datetime.now()` is a logical clock `Nat`, ticked at every call.
* Ghost fields (`attempts`, `started_at_writes`, `completed_at_writes`,
  `result_writes`, `error_writes`, `callback_calls`) count field assignments
  and progress-callback invocations; they instrument the model without
  influencing control flow.
* A scheduling round is modelled in two phases mirroring the source:
  `stampRound` performs the start of `_execute_step` for every ready step
  (status := RUNNING, started_at := now()) — this happens for *all* steps
  handed to `asyncio.gather` — and `procRound` is the
  `for step, result in zip(ready_steps, step_results)` loop, which processes
  results sequentially in step-list order, skips the progress callback on a
  retried failure (`continue`), and returns early (halting the workflow) when
  a step exhausts its retries.
* The dynamic typing of `WorkflowStep.step_type` is modelled by a `String`
  field checked against the list of registered handler keys, because the
  dataclass performs no validation and `self.step_handlers.get` can miss.
* The exception raised when the ready set is empty is recorded in the ghost
  flag `raised`; the `except` clause of `execute_workflow` ignores the
  exception value and only sets the workflow status.
-/

namespace Gentify

/-- `WorkflowStatus` enum of the source. -/
inductive WStatus where
  | pending
  | running
  | completed
  | failed
  | paused
  | cancelled
deriving DecidableEq, Repr

abbrev StepId := String

/-- `WorkflowStep` dataclass state, plus ghost counters (fields after
`completed_at`) counting assignments made by the engine. -/
structure StepState where
  step_id : StepId
  step_type : String
  dependencies : List StepId
  timeout_seconds : Option Nat
  retry_count : Nat
  max_retries : Nat
  status : WStatus
  result : Option Nat
  error : Option String
  started_at : Option Nat
  completed_at : Option Nat
  attempts : Nat := 0
  started_at_writes : Nat := 0
  completed_at_writes : Nat := 0
  result_writes : Nat := 0
  error_writes : Nat := 0
  callback_calls : Nat := 0
deriving DecidableEq, Repr

/-- A fresh step as built by the `WorkflowStep` constructor: default
`retry_count = 0`, `status = PENDING`, result/error/timestamps unset. -/
def mkStep (sid : StepId) (stype : String) (deps : List StepId)
    (tos : Option Nat) (maxr : Nat) : StepState :=
  { step_id := sid, step_type := stype, dependencies := deps,
    timeout_seconds := tos, retry_count := 0, max_retries := maxr,
    status := .pending, result := none, error := none,
    started_at := none, completed_at := none }

/-- The behaviour of the external world: per-attempt handler outcomes and
durations, and whether a progress callback was supplied. -/
structure Env where
  outcome : StepId → Nat → Except String Nat
  duration : StepId → Nat → Nat
  cb : Bool

/-- The keys of `self.step_handlers` registered in `__init__`
(the values of the `StepType` enum). -/
def registeredStepTypes : List String :=
  ["agent_task", "conditional", "parallel", "loop", "human_input",
   "file_operation", "validation"]

/-- Outcome of one dispatched attempt of a step (`_execute_step` after the
initial stamping): raise `ValueError` if `step_handlers.get` misses, else run
the handler, wrapped in `asyncio.wait_for` when `step.timeout_seconds` is
truthy (present and nonzero). The attempt settles at `duration`; if that
exceeds the bound the attempt raises `TimeoutError` instead. -/
def attemptOutcome (env : Env) (s : StepState) : Except String Nat :=
  if s.step_type ∈ registeredStepTypes then
    match s.timeout_seconds with
    | some t =>
      if t ≠ 0 ∧ env.duration s.step_id s.retry_count > t then
        .error "TimeoutError"
      else
        env.outcome s.step_id s.retry_count
    | none => env.outcome s.step_id s.retry_count
  else
    .error ("No handler for step type: " ++ s.step_type)

/-- Start of `_execute_step`: `step.status = RUNNING`,
`step.started_at = datetime.now()` — executed on every attempt, before the
handler lookup. Ghost: counts the attempt and the `started_at` write. -/
def stampStart (c : Nat) (s : StepState) : StepState :=
  { s with status := .running, started_at := some c,
           attempts := s.attempts + 1,
           started_at_writes := s.started_at_writes + 1 }

/-- Failure bookkeeping of the result-processing loop:
`step.status = FAILED; step.error = str(result)`. -/
def failStep (m : String) (s : StepState) : StepState :=
  { s with status := .failed, error := some m,
           error_writes := s.error_writes + 1 }

/-- Retry bookkeeping: `step.retry_count += 1; step.status = PENDING`. -/
def retryStep (s : StepState) : StepState :=
  { s with retry_count := s.retry_count + 1, status := .pending }

/-- Success bookkeeping: `step.status = COMPLETED; step.result = result;
step.completed_at = datetime.now()`, followed by the progress callback. -/
def completeStep (cb : Bool) (c : Nat) (v : Nat) (s : StepState) : StepState :=
  { s with status := .completed, result := some v,
           result_writes := s.result_writes + 1,
           completed_at := some c,
           completed_at_writes := s.completed_at_writes + 1,
           callback_calls := s.callback_calls + (if cb then 1 else 0) }

/-- `executed_steps` is a Python `set`; adding keeps elements distinct. -/
def addExec (sid : StepId) (ex : List StepId) : List StepId :=
  if sid ∈ ex then ex else ex ++ [sid]

/-- Ready test of the scheduler: the step's id is not in `executed_steps` and
every declared dependency is (`step.status` is *not* consulted). -/
def isReady (ex : List StepId) (s : StepState) : Bool :=
  !(ex.contains s.step_id) && s.dependencies.all (fun d => ex.contains d)

/-- Engine state of one `execute_workflow` call: the workflow's mutable data
plus the local `executed_steps` set and the logical clock. `raised` is a
ghost flag recording that the empty-ready-set exception was raised. -/
structure EngineState where
  steps : List StepState
  executed : List StepId
  wstatus : WStatus
  wstarted : Option Nat
  wcompleted : Option Nat
  clock : Nat
  raised : Bool := false
deriving DecidableEq, Repr

/-- Phase 1 of a round: every ready step (w.r.t. the `executed_steps` set
`ex0` frozen at the start of the round) is dispatched by `asyncio.gather`,
running the start of `_execute_step`. Returns the updated step list and
clock. -/
def stampRound (ex0 : List StepId) (c : Nat) :
    List StepState → List StepState × Nat
  | [] => ([], c)
  | s :: rest =>
    if isReady ex0 s then
      let p := stampRound ex0 (c + 1) rest
      (stampStart c s :: p.1, p.2)
    else
      let p := stampRound ex0 c rest
      (s :: p.1, p.2)

/-- Result of phase 2 of a round. `halted = true` means the loop executed
`return False` (a step exhausted its retries). -/
structure RoundOut where
  steps : List StepState
  executed : List StepId
  clock : Nat
  halted : Bool
deriving DecidableEq, Repr

/-- Phase 2 of a round: the `for step, result in zip(ready_steps,
step_results)` loop. Ready steps (w.r.t. the frozen `ex0`) are processed in
step-list order; a failure with retry budget left resets the step to
`PENDING` and skips the callback (`continue`); an exhausted failure marks the
step `FAILED` and returns immediately, leaving every later step of the list
untouched (their dispatched results are discarded). -/
def procRound (env : Env) (ex0 : List StepId) :
    List StepState → List StepId → Nat → RoundOut
  | [], ex, c => ⟨[], ex, c, false⟩
  | s :: rest, ex, c =>
    if isReady ex0 s then
      match attemptOutcome env s with
      | .error m =>
        if s.retry_count < s.max_retries then
          let r := procRound env ex0 rest ex c
          ⟨retryStep (failStep m s) :: r.steps, r.executed, r.clock, r.halted⟩
        else
          ⟨failStep m s :: rest, ex, c, true⟩
      | .ok v =>
        let r := procRound env ex0 rest (addExec s.step_id ex) (c + 1)
        ⟨completeStep env.cb c v s :: r.steps, r.executed, r.clock, r.halted⟩
    else
      let r := procRound env ex0 rest ex c
      ⟨s :: r.steps, r.executed, r.clock, r.halted⟩

/-- The `while len(executed_steps) < len(workflow.steps)` scheduler loop,
with explicit fuel (`none` = fuel exhausted; every theorem about a complete
run supplies sufficient fuel, which also establishes termination). An empty
ready set raises; the `except` clause turns that into
`workflow.status = FAILED; return False`. -/
def loopExec (env : Env) : Nat → EngineState → Option (Bool × EngineState)
  | 0, _ => none
  | fuel + 1, st =>
    if st.executed.length < st.steps.length then
      if (st.steps.filter (fun s => isReady st.executed s)).isEmpty then
        some (false, { st with wstatus := .failed, raised := true })
      else
        let p1 := stampRound st.executed st.clock st.steps
        let r := procRound env st.executed p1.1 st.executed p1.2
        let st' : EngineState :=
          { st with steps := r.steps, executed := r.executed, clock := r.clock,
                    wstatus := if r.halted then WStatus.failed else st.wstatus }
        if r.halted then some (false, st') else loopExec env fuel st'
    else
      some (true, { st with wstatus := .completed,
                            wcompleted := some st.clock, clock := st.clock + 1 })

/-- Entry of `execute_workflow`: `workflow.status = RUNNING;
workflow.started_at = datetime.now()`, then the scheduler loop. -/
def initState (steps : List StepState) : EngineState :=
  { steps := steps, executed := [], wstatus := .running,
    wstarted := some 0, wcompleted := none, clock := 1, raised := false }

/-- `execute_workflow` on a registered workflow whose steps are `steps`. -/
def executeWorkflow (env : Env) (fuel : Nat) (steps : List StepState) :
    Option (Bool × EngineState) :=
  loopExec env fuel (initState steps)

/-! ## The agent-task handler `_execute_agent_task` -/

/-- A value stored in `Workflow.context` / a step's `parameters["context"]`:
either an atom or a dict (the shape `_execute_agent_task` stores). -/
inductive CtxVal where
  | atom : String → CtxVal
  | dict : List (String × String) → CtxVal
deriving DecidableEq, Repr

abbrev Ctx := List (String × CtxVal)

/-- Python `dict.update`: existing keys are overwritten in place, new keys
are appended in the update's order. -/
def ctxUpdate (base upd : Ctx) : Ctx :=
  base.map (fun kv =>
    match upd.lookup kv.1 with
    | some v => (kv.1, v)
    | none => kv)
  ++ upd.filter (fun kv => (base.lookup kv.1).isNone)

/-- The fields of `AgentResponse` the handler consumes
(`success`, `message`, `data`). -/
structure AgentResponse where
  success : Bool
  message : String
  data : Option (List (String × String))
deriving DecidableEq, Repr

/-- The two entries of `step.parameters` read by `_execute_agent_task`
(`.get` misses modelled by `none`). -/
structure AgentParams where
  request : Option String
  context : Option Ctx
deriving DecidableEq, Repr

/-- Python truthiness of `response.data`: `None` and the empty dict are
falsy. -/
def dataTruthy : Option (List (String × String)) → Bool
  | none => false
  | some l => !l.isEmpty

/-- `_execute_agent_task`: read `parameters["request"]` (default `""`) and
`parameters["context"]` (default `{}`), merge `workflow.context` into the
latter, call the agent, raise when `response.success` is false, else write
`response.data` (if truthy) into `workflow.context` under
`f"{step.step_id}_result"` and return `response` (the whole object). The
returned pair is (handler return value, new workflow context). -/
def executeAgentTask (agent : String → Ctx → AgentResponse) (wctx : Ctx)
    (sid : String) (params : AgentParams) : Except String (AgentResponse × Ctx) :=
  let request := params.request.getD ""
  let context := ctxUpdate (params.context.getD []) wctx
  let response := agent request context
  if response.success = false then
    .error ("Agent task failed: " ++ response.message)
  else
    let wctx' :=
      if dataTruthy response.data then
        ctxUpdate wctx [(sid ++ "_result", CtxVal.dict (response.data.getD []))]
      else wctx
    .ok (response, wctx')

/-- Modelled from the spec's words (§4.4, AgentTask), for comparison with the
source translation `executeAgentTask`: on success the handler "returns the
agent's data payload and writes it into `Workflow.context`" under the
step-id-derived key, unconditionally. -/
def agentTaskSpecModel (agent : String → Ctx → AgentResponse) (wctx : Ctx)
    (sid : String) (params : AgentParams) :
    Except String (Option (List (String × String)) × Ctx) :=
  let request := params.request.getD ""
  let context := ctxUpdate (params.context.getD []) wctx
  let response := agent request context
  if response.success = false then
    .error ("Agent task failed: " ++ response.message)
  else
    .ok (response.data,
         ctxUpdate wctx [(sid ++ "_result", CtxVal.dict (response.data.getD []))])

/-! ## Result predicates used as theorem conclusions -/

/-- A fresh step, as produced by the `WorkflowStep` constructor before any
execution. -/
def FreshStep (s : StepState) : Prop :=
  s.status = .pending ∧ s.retry_count = 0 ∧ s.result = none ∧ s.error = none ∧
  s.started_at = none ∧ s.completed_at = none ∧ s.attempts = 0 ∧
  s.started_at_writes = 0 ∧ s.completed_at_writes = 0 ∧ s.result_writes = 0 ∧
  s.error_writes = 0 ∧ s.callback_calls = 0

instance (s : StepState) : Decidable (FreshStep s) := by
  unfold FreshStep; infer_instance

/-- C1 conclusion: the run finishes (fuel suffices, i.e. the loop
terminates), returns `true`, the workflow is `Completed`, and every step is
`Completed`. -/
def CompletesOk (r : Option (Bool × EngineState)) : Prop :=
  ∃ p, r = some p ∧ p.1 = true ∧ p.2.wstatus = .completed ∧
    ∀ s ∈ p.2.steps, s.status = .completed

/-- C2/C4/C9 conclusion shape: the run of a workflow whose sole step `s`
fails every attempt finishes, returns `false`, marks the workflow `Failed`,
and leaves the step `Failed` after exactly `max_retries + 1` dispatches with
`retry_count = max_retries`; the progress callback was never invoked for it
and its `result` is never written. -/
def AllFailRun (s : StepState) (r : Option (Bool × EngineState)) : Prop :=
  ∃ st', r = some (false, st') ∧ st'.wstatus = .failed ∧
    ∃ s', st'.steps = [s'] ∧ s'.status = .failed ∧
      s'.retry_count = s.max_retries ∧ s'.attempts = s.max_retries + 1 ∧
      s'.result = s.result ∧ s'.callback_calls = s.callback_calls

/-- C3 conclusion: whenever the run ends via the empty-ready-set exception
(`raised`), it returned `false` with the workflow `Failed`, and every step
that depends on the missing id `d` is untouched: still `Pending`, never
stamped `Running` (`started_at` unset, zero dispatches). -/
def MissingDepRun (d : StepId) (r : Option (Bool × EngineState)) : Prop :=
  ∀ p, r = some p → p.2.raised = true →
    p.1 = false ∧ p.2.wstatus = .failed ∧
    ∀ s ∈ p.2.steps, d ∈ s.dependencies →
      s.status = .pending ∧ s.started_at = none ∧ s.attempts = 0

/-- C4 amended conclusion: an unknown-kind single step is dispatched
`max_retries + 1` times, each dispatch raising the `ValueError` of the
handler lookup, and only then is the step terminally `Failed`. -/
def UnknownKindRun (s : StepState) (r : Option (Bool × EngineState)) : Prop :=
  ∃ st', r = some (false, st') ∧ st'.wstatus = .failed ∧
    ∃ s', st'.steps = [s'] ∧ s'.status = .failed ∧
      s'.retry_count = s.max_retries ∧ s'.attempts = s.max_retries + 1 ∧
      s'.error = some ("No handler for step type: " ++ s.step_type)

/-- C5 amended conclusion: at the end of any run, a step's progress-callback
count is 1 exactly when a callback was supplied and the step is `Completed`,
and 0 otherwise — failures (retried or terminal) never invoke it. -/
def CallbackOk (cb : Bool) (r : Option (Bool × EngineState)) : Prop :=
  ∀ p, r = some p → ∀ s ∈ p.2.steps,
    s.callback_calls = (if cb = true ∧ s.status = .completed then 1 else 0)

/-- C6 amended conclusion: `started_at` is written once per dispatch
(`started_at_writes = attempts`, so it is overwritten whenever a step is
retried), while `completed_at` is written exactly once for a `Completed`
step and never otherwise. -/
def TimestampWritesOk (r : Option (Bool × EngineState)) : Prop :=
  ∀ p, r = some p → ∀ s ∈ p.2.steps,
    s.started_at_writes = s.attempts ∧
    s.completed_at_writes = (if s.status = .completed then 1 else 0)

/-- C7 amended conclusion: `result` is written exactly once for a
`Completed` step and never otherwise, and every settled attempt writes
exactly one of `result`/`error` (a still-`Running` step holds one dispatched
but unsettled attempt). `error` is never cleared, so counts accumulate
across retries. -/
def ResultErrorWritesOk (r : Option (Bool × EngineState)) : Prop :=
  ∀ p, r = some p → ∀ s ∈ p.2.steps,
    s.result_writes = (if s.status = .completed then 1 else 0) ∧
    s.error_writes + s.result_writes + (if s.status = .running then 1 else 0)
      = s.attempts

/-- C9 amended conclusion (engine part): a single step whose every attempt
hits its (nonzero) timeout is handled by the ordinary retry policy — it is
dispatched `max_retries + 1` times and then terminally `Failed` with the
timeout error recorded. -/
def TimeoutRun (s : StepState) (r : Option (Bool × EngineState)) : Prop :=
  ∃ st', r = some (false, st') ∧ st'.wstatus = .failed ∧
    ∃ s', st'.steps = [s'] ∧ s'.status = .failed ∧
      s'.retry_count = s.max_retries ∧ s'.attempts = s.max_retries + 1 ∧
      s'.error = some "TimeoutError"

/-- C10 conclusion: the loop returns `false`, the workflow is `Failed`, and
the step at position `pos` (a sibling dispatched in the fatal round but
processed after the exhausting step) is left `Running` with no result, no
completion timestamp, no callback invocation, and its id (`sbId`) absent
from the completed set. -/
def SiblingLeftRunning (sbId : StepId) (pos : Nat)
    (r : Option (Bool × EngineState)) : Prop :=
  ∃ st', r = some (false, st') ∧ st'.wstatus = .failed ∧
    ∃ sb', st'.steps.get? pos = some sb' ∧
      sb'.step_id = sbId ∧ sb'.status = .running ∧ sb'.result = none ∧
      sb'.completed_at = none ∧ sb'.callback_calls = 0 ∧
      sbId ∉ st'.executed

/-- The error message of a failed attempt, `none` for a success. -/
def errOf : Except String Nat → Option String
  | .error m => some m
  | .ok _ => none

/-- Rebuild a step at a given retry count (the only mutable field
`attemptOutcome` reads). -/
def setRetry (s : StepState) (r : Nat) : StepState := { s with retry_count := r }

/-- `s` agrees with some step of the original workflow `w` on every field the
scheduler and `attemptOutcome` read. -/
def Sourced (w : List StepState) (s : StepState) : Prop :=
  ∃ s0 ∈ w, s.step_id = s0.step_id ∧ s.dependencies = s0.dependencies ∧
    s.step_type = s0.step_type ∧ s.timeout_seconds = s0.timeout_seconds ∧
    s.retry_count = s0.retry_count

/-- Ghost-counter invariant, relative to the supplied-callback flag and the
current `executed_steps` set: write counters determined by status/attempts,
and a `Completed` step is in the completed set. -/
def GhostInv (cb : Bool) (ex : List StepId) (s : StepState) : Prop :=
  s.started_at_writes = s.attempts ∧
  s.completed_at_writes = (if s.status = .completed then 1 else 0) ∧
  s.result_writes = (if s.status = .completed then 1 else 0) ∧
  s.callback_calls = (if cb = true ∧ s.status = .completed then 1 else 0) ∧
  s.error_writes + s.result_writes + (if s.status = .running then 1 else 0)
    = s.attempts ∧
  (s.status = .completed → s.step_id ∈ ex)

/-- Statuses a step can have when a scheduling round begins. -/
def EntryOK (s : StepState) : Prop :=
  s.status = .pending ∨ s.status = .completed

/-! ## Concrete inputs for counterexamples and witnesses -/

/-- Every handler call fails. -/
def envAlwaysFail : Env := ⟨fun _ _ => .error "boom", fun _ _ => 0, true⟩

/-- Handlers fail on the first attempt and succeed on retries. -/
def envFailThenOk : Env :=
  ⟨fun _ k => if k = 0 then .error "boom" else .ok 7, fun _ _ => 0, true⟩

/-- Handlers succeed but each attempt takes 5 time units. -/
def envSlowOk : Env := ⟨fun _ _ => .ok 5, fun _ _ => 5, true⟩

/-- Same handler outcomes as `envSlowOk`, instantaneous attempts. -/
def envSlowOkZeroDur : Env := ⟨fun _ _ => .ok 5, fun _ _ => 0, true⟩

/-- Handlers succeed instantly. -/
def envAllOk : Env := ⟨fun _ _ => .ok 1, fun _ _ => 0, true⟩

def stepFailA : StepState := mkStep "a" "agent_task" [] none 1

def stepFailB : StepState := mkStep "b" "agent_task" [] none 1

def stepX : StepState := mkStep "x" "agent_task" [] none 1

def stepMissingDep : StepState := mkStep "y" "agent_task" ["z"] none 3

def stepBogus : StepState := mkStep "g" "bogus" [] none 1

def stepZeroTimeout : StepState := mkStep "t" "agent_task" [] (some 0) 3

def stepShortTimeout : StepState := mkStep "t" "agent_task" [] (some 3) 1

def stepChainA : StepState := mkStep "a" "agent_task" [] none 3

def stepChainB : StepState := mkStep "b" "agent_task" ["a"] none 3

/-- Exhausts its budget immediately (`max_retries = 0`). -/
def stepNoRetry : StepState := mkStep "a" "agent_task" [] none 0

/-- Ranks for the witness chain `a ← b`. -/
def rankAB : StepId → Nat := fun i => if i = "b" then 1 else 0

/-- Outcomes for C10's witness: step `a` fails, step `b` succeeds. -/
def envC10 : Env :=
  ⟨fun sid _ => if sid = "a" then .error "boom" else .ok 3, fun _ _ => 0, true⟩

/-- Agent for C8's counterexample: succeeds with an empty (falsy) dict
payload. -/
def agentEmptyData : String → Ctx → AgentResponse :=
  fun _ _ => ⟨true, "done", some []⟩

/-- Agent returning a nonempty payload. -/
def agentWithData : String → Ctx → AgentResponse :=
  fun _ _ => ⟨true, "done", some [("answer", "42")]⟩

/-- Agent reporting failure. -/
def agentFailing : String → Ctx → AgentResponse :=
  fun _ _ => ⟨false, "nope", some [("answer", "42")]⟩

def ctxC8 : Ctx := [("k", CtxVal.atom "v")]

def paramsC8 : AgentParams := ⟨some "do it", some [("local", CtxVal.atom "l")]⟩

/-! ## Basic lemmas about the model -/

theorem attemptOutcome_congr (env : Env) {s t : StepState}
    (h1 : s.step_type = t.step_type) (h2 : s.timeout_seconds = t.timeout_seconds)
    (h3 : s.step_id = t.step_id) (h4 : s.retry_count = t.retry_count) :
    attemptOutcome env s = attemptOutcome env t := by
  unfold attemptOutcome
  rw [h1, h2, h3, h4]

@[simp] theorem attemptOutcome_stampStart (env : Env) (c : Nat) (s : StepState) :
    attemptOutcome env (stampStart c s) = attemptOutcome env s := rfl

@[simp] theorem isReady_stampStart (ex : List StepId) (c : Nat) (s : StepState) :
    isReady ex (stampStart c s) = isReady ex s := rfl

@[simp] theorem stampStart_retry_count (c : Nat) (s : StepState) :
    (stampStart c s).retry_count = s.retry_count := rfl

@[simp] theorem stampStart_max_retries (c : Nat) (s : StepState) :
    (stampStart c s).max_retries = s.max_retries := rfl

@[simp] theorem stampStart_step_id (c : Nat) (s : StepState) :
    (stampStart c s).step_id = s.step_id := rfl

@[simp] theorem stampStart_dependencies (c : Nat) (s : StepState) :
    (stampStart c s).dependencies = s.dependencies := rfl

@[simp] theorem stampStart_status (c : Nat) (s : StepState) :
    (stampStart c s).status = .running := rfl

@[simp] theorem stampStart_attempts (c : Nat) (s : StepState) :
    (stampStart c s).attempts = s.attempts + 1 := rfl

@[simp] theorem stampStart_started_at_writes (c : Nat) (s : StepState) :
    (stampStart c s).started_at_writes = s.started_at_writes + 1 := rfl

@[simp] theorem stampStart_completed_at_writes (c : Nat) (s : StepState) :
    (stampStart c s).completed_at_writes = s.completed_at_writes := rfl

@[simp] theorem stampStart_result_writes (c : Nat) (s : StepState) :
    (stampStart c s).result_writes = s.result_writes := rfl

@[simp] theorem stampStart_error_writes (c : Nat) (s : StepState) :
    (stampStart c s).error_writes = s.error_writes := rfl

@[simp] theorem stampStart_callback_calls (c : Nat) (s : StepState) :
    (stampStart c s).callback_calls = s.callback_calls := rfl

@[simp] theorem stampStart_result (c : Nat) (s : StepState) :
    (stampStart c s).result = s.result := rfl

@[simp] theorem stampStart_completed_at (c : Nat) (s : StepState) :
    (stampStart c s).completed_at = s.completed_at := rfl

@[simp] theorem stampStart_started_at (c : Nat) (s : StepState) :
    (stampStart c s).started_at = some c := rfl

@[simp] theorem stampStart_step_type (c : Nat) (s : StepState) :
    (stampStart c s).step_type = s.step_type := rfl

@[simp] theorem stampStart_timeout_seconds (c : Nat) (s : StepState) :
    (stampStart c s).timeout_seconds = s.timeout_seconds := rfl

@[simp] theorem failStep_step_type (m : String) (s : StepState) :
    (failStep m s).step_type = s.step_type := rfl

@[simp] theorem failStep_timeout_seconds (m : String) (s : StepState) :
    (failStep m s).timeout_seconds = s.timeout_seconds := rfl

@[simp] theorem retryStep_step_type (s : StepState) :
    (retryStep s).step_type = s.step_type := rfl

@[simp] theorem retryStep_timeout_seconds (s : StepState) :
    (retryStep s).timeout_seconds = s.timeout_seconds := rfl

@[simp] theorem completeStep_step_type (cb : Bool) (c v : Nat) (s : StepState) :
    (completeStep cb c v s).step_type = s.step_type := rfl

@[simp] theorem completeStep_timeout_seconds (cb : Bool) (c v : Nat) (s : StepState) :
    (completeStep cb c v s).timeout_seconds = s.timeout_seconds := rfl

@[simp] theorem failStep_status (m : String) (s : StepState) :
    (failStep m s).status = .failed := rfl

@[simp] theorem failStep_error (m : String) (s : StepState) :
    (failStep m s).error = some m := rfl

@[simp] theorem failStep_error_writes (m : String) (s : StepState) :
    (failStep m s).error_writes = s.error_writes + 1 := rfl

@[simp] theorem failStep_retry_count (m : String) (s : StepState) :
    (failStep m s).retry_count = s.retry_count := rfl

@[simp] theorem failStep_max_retries (m : String) (s : StepState) :
    (failStep m s).max_retries = s.max_retries := rfl

@[simp] theorem failStep_step_id (m : String) (s : StepState) :
    (failStep m s).step_id = s.step_id := rfl

@[simp] theorem failStep_dependencies (m : String) (s : StepState) :
    (failStep m s).dependencies = s.dependencies := rfl

@[simp] theorem failStep_attempts (m : String) (s : StepState) :
    (failStep m s).attempts = s.attempts := rfl

@[simp] theorem failStep_started_at_writes (m : String) (s : StepState) :
    (failStep m s).started_at_writes = s.started_at_writes := rfl

@[simp] theorem failStep_completed_at_writes (m : String) (s : StepState) :
    (failStep m s).completed_at_writes = s.completed_at_writes := rfl

@[simp] theorem failStep_result_writes (m : String) (s : StepState) :
    (failStep m s).result_writes = s.result_writes := rfl

@[simp] theorem failStep_callback_calls (m : String) (s : StepState) :
    (failStep m s).callback_calls = s.callback_calls := rfl

@[simp] theorem failStep_result (m : String) (s : StepState) :
    (failStep m s).result = s.result := rfl

@[simp] theorem failStep_completed_at (m : String) (s : StepState) :
    (failStep m s).completed_at = s.completed_at := rfl

@[simp] theorem failStep_started_at (m : String) (s : StepState) :
    (failStep m s).started_at = s.started_at := rfl

@[simp] theorem retryStep_status (s : StepState) :
    (retryStep s).status = .pending := rfl

@[simp] theorem retryStep_retry_count (s : StepState) :
    (retryStep s).retry_count = s.retry_count + 1 := rfl

@[simp] theorem retryStep_max_retries (s : StepState) :
    (retryStep s).max_retries = s.max_retries := rfl

@[simp] theorem retryStep_step_id (s : StepState) :
    (retryStep s).step_id = s.step_id := rfl

@[simp] theorem retryStep_dependencies (s : StepState) :
    (retryStep s).dependencies = s.dependencies := rfl

@[simp] theorem retryStep_attempts (s : StepState) :
    (retryStep s).attempts = s.attempts := rfl

@[simp] theorem retryStep_started_at_writes (s : StepState) :
    (retryStep s).started_at_writes = s.started_at_writes := rfl

@[simp] theorem retryStep_completed_at_writes (s : StepState) :
    (retryStep s).completed_at_writes = s.completed_at_writes := rfl

@[simp] theorem retryStep_result_writes (s : StepState) :
    (retryStep s).result_writes = s.result_writes := rfl

@[simp] theorem retryStep_error_writes (s : StepState) :
    (retryStep s).error_writes = s.error_writes := rfl

@[simp] theorem retryStep_callback_calls (s : StepState) :
    (retryStep s).callback_calls = s.callback_calls := rfl

@[simp] theorem retryStep_result (s : StepState) :
    (retryStep s).result = s.result := rfl

@[simp] theorem retryStep_error (s : StepState) :
    (retryStep s).error = s.error := rfl

@[simp] theorem retryStep_completed_at (s : StepState) :
    (retryStep s).completed_at = s.completed_at := rfl

@[simp] theorem retryStep_started_at (s : StepState) :
    (retryStep s).started_at = s.started_at := rfl

@[simp] theorem completeStep_status (cb : Bool) (c v : Nat) (s : StepState) :
    (completeStep cb c v s).status = .completed := rfl

@[simp] theorem completeStep_result (cb : Bool) (c v : Nat) (s : StepState) :
    (completeStep cb c v s).result = some v := rfl

@[simp] theorem completeStep_result_writes (cb : Bool) (c v : Nat) (s : StepState) :
    (completeStep cb c v s).result_writes = s.result_writes + 1 := rfl

@[simp] theorem completeStep_completed_at (cb : Bool) (c v : Nat) (s : StepState) :
    (completeStep cb c v s).completed_at = some c := rfl

@[simp] theorem completeStep_completed_at_writes (cb : Bool) (c v : Nat)
    (s : StepState) :
    (completeStep cb c v s).completed_at_writes = s.completed_at_writes + 1 := rfl

@[simp] theorem completeStep_callback_calls (cb : Bool) (c v : Nat) (s : StepState) :
    (completeStep cb c v s).callback_calls
      = s.callback_calls + (if cb then 1 else 0) := rfl

@[simp] theorem completeStep_retry_count (cb : Bool) (c v : Nat) (s : StepState) :
    (completeStep cb c v s).retry_count = s.retry_count := rfl

@[simp] theorem completeStep_max_retries (cb : Bool) (c v : Nat) (s : StepState) :
    (completeStep cb c v s).max_retries = s.max_retries := rfl

@[simp] theorem completeStep_step_id (cb : Bool) (c v : Nat) (s : StepState) :
    (completeStep cb c v s).step_id = s.step_id := rfl

@[simp] theorem completeStep_dependencies (cb : Bool) (c v : Nat) (s : StepState) :
    (completeStep cb c v s).dependencies = s.dependencies := rfl

@[simp] theorem completeStep_attempts (cb : Bool) (c v : Nat) (s : StepState) :
    (completeStep cb c v s).attempts = s.attempts := rfl

@[simp] theorem completeStep_started_at_writes (cb : Bool) (c v : Nat)
    (s : StepState) :
    (completeStep cb c v s).started_at_writes = s.started_at_writes := rfl

@[simp] theorem completeStep_error_writes (cb : Bool) (c v : Nat) (s : StepState) :
    (completeStep cb c v s).error_writes = s.error_writes := rfl

@[simp] theorem completeStep_error (cb : Bool) (c v : Nat) (s : StepState) :
    (completeStep cb c v s).error = s.error := rfl

@[simp] theorem completeStep_started_at (cb : Bool) (c v : Nat) (s : StepState) :
    (completeStep cb c v s).started_at = s.started_at := rfl

@[simp] theorem setRetry_self (s : StepState) : setRetry s s.retry_count = s := rfl

theorem mem_addExec {a sid : StepId} {ex : List StepId} :
    a ∈ addExec sid ex ↔ a = sid ∨ a ∈ ex := by
  unfold addExec
  split
  · constructor
    · exact Or.inr
    · rintro (rfl | h)
      · assumption
      · assumption
  · simp [or_comm]

theorem subset_addExec (sid : StepId) (ex : List StepId) : ex ⊆ addExec sid ex := by
  intro a ha
  exact mem_addExec.mpr (Or.inr ha)

theorem addExec_nodup {sid : StepId} {ex : List StepId} (h : ex.Nodup) :
    (addExec sid ex).Nodup := by
  unfold addExec
  split
  · exact h
  · simpa using List.Nodup.append h (List.nodup_singleton sid) (by
      intro a ha hb
      simp at hb
      subst hb
      exact absurd ha (by assumption))

theorem length_addExec_of_not_mem {sid : StepId} {ex : List StepId}
    (h : sid ∉ ex) : (addExec sid ex).length = ex.length + 1 := by
  unfold addExec
  split
  · exact absurd (by assumption) h
  · simp

theorem isReady_iff {ex : List StepId} {s : StepState} :
    isReady ex s = true ↔ s.step_id ∉ ex ∧ ∀ d ∈ s.dependencies, d ∈ ex := by
  simp [isReady, List.all_eq_true]

theorem isReady_false_of_dep {ex : List StepId} {s : StepState} {d : StepId}
    (hd : d ∈ s.dependencies) (hne : d ∉ ex) : isReady ex s = false := by
  cases h : isReady ex s
  · rfl
  · exact absurd ((isReady_iff.mp h).2 d hd) hne

/-! ## Counterexample theorems -/

/-- C2: the claim fails on the code. In the workflow `[a, b]` where both
steps' handlers always fail and both have `maxRetries = 1`, step `b` fails
its handler on every attempt, is dispatched the claimed `N + 1 = 2` times in
two successive rounds, and reaches `retryCount = 1 = N`; but when `a`
(processed earlier in the round's order) exhausts its retries,
`execute_workflow` returns `false` immediately, leaving `b` with final
status `Running` — not `Failed` as the claim states. -/
theorem C2_counterexample :
    (executeWorkflow envAlwaysFail 3 [stepFailA, stepFailB]).map
        (fun p => (p.1, p.2.wstatus,
          p.2.steps.map (fun s => (s.status, s.retry_count, s.attempts))))
      = some (false, WStatus.failed,
          [(WStatus.failed, 1, 2), (WStatus.running, 1, 2)]) ∧
    WStatus.running ≠ WStatus.failed := by
  exact ⟨rfl, by decide⟩

/-- C4: the claim fails on the code. A single step of unregistered kind
`"bogus"` with `maxRetries = 1` is retried like any failing step: after the
first dispatch raises the handler-lookup `ValueError`, the step is reset to
`Pending` (`retry_count` becomes 1) and dispatched a second time
(`attempts = 2`), only then becoming terminally `Failed` — the failure is
not terminal on the first attempt. -/
theorem C4_counterexample :
    (executeWorkflow envAllOk 3 [stepBogus]).map
        (fun p => (p.1, p.2.wstatus,
          p.2.steps.map (fun s => (s.status, s.retry_count, s.attempts, s.error))))
      = some (false, WStatus.failed,
          [(WStatus.failed, 1, 2, some "No handler for step type: bogus")]) ∧
    (2 : Nat) ≠ 1 := by
  exact ⟨rfl, by decide⟩

/-- C5: the claim fails on the code. A single step that fails its first
attempt and succeeds on retry has two settled attempts (`attempts = 2`), but
the supplied progress callback is invoked only once (after the successful
attempt): the `continue` in the retry branch skips the callback on the
failed attempt. -/
theorem C5_counterexample :
    (executeWorkflow envFailThenOk 3 [stepX]).map
        (fun p => (p.1,
          p.2.steps.map (fun s => (s.status, s.attempts, s.callback_calls))))
      = some (true, [(WStatus.completed, 2, 1)]) ∧
    (1 : Nat) ≠ 2 := by
  exact ⟨rfl, by decide⟩

/-- C6: the claim fails on the code. A single step that fails its first
attempt and succeeds on retry has `started_at` assigned twice
(`started_at_writes = 2`, once per dispatch in `_execute_step`): the first
value is overwritten on retry. -/
theorem C6_counterexample :
    (executeWorkflow envFailThenOk 3 [stepX]).map
        (fun p => (p.1,
          p.2.steps.map (fun s => (s.started_at_writes, s.attempts, s.status))))
      = some (true, [(2, 2, WStatus.completed)]) ∧
    (2 : Nat) ≠ 1 := by
  exact ⟨rfl, by decide⟩

/-- C7: the claim fails on the code. A single step that fails its first
attempt (setting `error`) and succeeds on retry (setting `result`, while
`error` is never cleared) ends with `result` and `error` both set —
violating mutual exclusion. -/
theorem C7_counterexample :
    (executeWorkflow envFailThenOk 3 [stepX]).map
        (fun p => (p.1, p.2.steps.map (fun s => (s.result, s.error, s.status))))
      = some (true, [(some 7, some "boom", WStatus.completed)]) ∧
    (some 7 : Option Nat) ≠ none ∧ (some "boom" : Option String) ≠ none := by
  exact ⟨rfl, by decide, by decide⟩

/-- C9: the claim fails on the code at `timeoutSeconds = 0`. The step's
timeout is set (to 0) and every attempt runs 5 time units, so the timeout
expires during the handler invocation; yet because `if step.timeout_seconds:`
treats 0 as falsy, `asyncio.wait_for` is never applied: the attempt is *not*
treated as a failure — the step completes on its first attempt with no
error. -/
theorem C9_counterexample :
    (executeWorkflow envSlowOk 2 [stepZeroTimeout]).map
        (fun p => (p.1,
          p.2.steps.map (fun s => (s.status, s.attempts, s.error, s.result))))
      = some (true, [(WStatus.completed, 1, none, some 5)]) ∧
    WStatus.completed ≠ WStatus.failed := by
  exact ⟨rfl, by decide⟩

/-- C8: the claim fails on the code. With an agent reporting success and a
non-null (but empty, hence falsy) data payload, `_execute_agent_task`
returns the whole `AgentResponse` object — not the data payload — and
performs no write to `Workflow.context` at all (the payload is not stored
under any key), whereas the spec-worded model stores the payload under
`"s1_result"`. -/
theorem C8_counterexample :
    executeAgentTask agentEmptyData ctxC8 "s1" paramsC8
        = .ok (⟨true, "done", some []⟩, ctxC8) ∧
    ctxC8.lookup "s1_result" = none ∧
    agentTaskSpecModel agentEmptyData ctxC8 "s1" paramsC8
        = .ok (some [], ctxC8 ++ [("s1_result", CtxVal.dict [])]) ∧
    (ctxC8 ++ [("s1_result", CtxVal.dict [])]).lookup "s1_result"
        = some (CtxVal.dict []) := by
  exact ⟨rfl, rfl, rfl, rfl⟩

/-! ## A workflow whose only step fails every attempt -/

/-- One scheduling round of a single-step workflow whose step's attempt
fails: the step is stamped, its failure is processed, and the loop either
retries in the next round or halts with the workflow `Failed`. -/
theorem singleton_round (env : Env) (fuel : Nat) (s : StepState)
    (wst : WStatus) (ws wc : Option Nat) (c : Nat) (rsd : Bool)
    (hdeps : s.dependencies = []) (m : String)
    (hm : attemptOutcome env s = .error m) :
    loopExec env (fuel + 1) ⟨[s], [], wst, ws, wc, c, rsd⟩ =
      if s.retry_count < s.max_retries then
        loopExec env fuel
          ⟨[retryStep (failStep m (stampStart c s))], [], wst, ws, wc, c + 1, rsd⟩
      else
        some (false, ⟨[failStep m (stampStart c s)], [], .failed, ws, wc, c + 1, rsd⟩) := by
  have hready : isReady [] s = true := by
    simp [isReady, hdeps]
  by_cases hc : s.retry_count < s.max_retries
  · rw [if_pos hc]
    simp [loopExec, stampRound, procRound, hready, hm, hc]
  · rw [if_neg hc]
    simp [loopExec, stampRound, procRound, hready, hm, hc]

/-- Running a single-step workflow whose step fails on every attempt: with
`retry_count + n = max_retries` remaining budget, after `n + 1` rounds the
step is terminally `Failed`, having been dispatched once per round, and the
loop returns `false` with the workflow `Failed`. -/
theorem singleton_allfail (env : Env) :
    ∀ (n : Nat) (s : StepState) (wst : WStatus) (ws wc : Option Nat)
      (c : Nat) (rsd : Bool),
    s.dependencies = [] →
    s.retry_count + n = s.max_retries →
    (∀ r : Nat, (attemptOutcome env (setRetry s r)).isOk = false) →
    ∃ s', loopExec env (n + 2) ⟨[s], [], wst, ws, wc, c, rsd⟩
        = some (false, ⟨[s'], [], .failed, ws, wc, c + n + 1, rsd⟩) ∧
      s'.status = .failed ∧ s'.retry_count = s.max_retries ∧
      s'.attempts = s.attempts + n + 1 ∧ s'.result = s.result ∧
      s'.callback_calls = s.callback_calls ∧
      s'.error = errOf (attemptOutcome env (setRetry s s.max_retries)) := by
  intro n
  induction n with
  | zero =>
    intro s wst ws wc c rsd hdeps hbudget hfail
    have hs : attemptOutcome env s = attemptOutcome env (setRetry s s.retry_count) := by
      rw [setRetry_self]
    obtain ⟨m, hm⟩ : ∃ m, attemptOutcome env s = .error m := by
      have h0 := hfail s.retry_count
      rw [← hs] at h0
      cases he : attemptOutcome env s with
      | error m => exact ⟨m, rfl⟩
      | ok v => rw [he] at h0; simp [Except.isOk, Except.toBool] at h0
    have hnl : ¬ s.retry_count < s.max_retries := by omega
    refine ⟨failStep m (stampStart c s), ?_, rfl, ?_, ?_, rfl, rfl, ?_⟩
    · rw [singleton_round env 1 s wst ws wc c rsd hdeps m hm, if_neg hnl]
    · show s.retry_count = s.max_retries
      omega
    · show s.attempts + 1 = s.attempts + 0 + 1
      omega
    · show some m = errOf (attemptOutcome env (setRetry s s.max_retries))
      have : s.max_retries = s.retry_count := by omega
      rw [this, setRetry_self, hm]
      rfl
  | succ k ih =>
    intro s wst ws wc c rsd hdeps hbudget hfail
    have hs : attemptOutcome env s = attemptOutcome env (setRetry s s.retry_count) := by
      rw [setRetry_self]
    obtain ⟨m, hm⟩ : ∃ m, attemptOutcome env s = .error m := by
      have h0 := hfail s.retry_count
      rw [← hs] at h0
      cases he : attemptOutcome env s with
      | error m => exact ⟨m, rfl⟩
      | ok v => rw [he] at h0; simp [Except.isOk, Except.toBool] at h0
    have hlt : s.retry_count < s.max_retries := by omega
    have hround := singleton_round env (k + 2) s wst ws wc c rsd hdeps m hm
    rw [if_pos hlt] at hround
    set s1 := retryStep (failStep m (stampStart c s)) with hs1
    have hdeps1 : s1.dependencies = [] := hdeps
    have hbudget1 : s1.retry_count + k = s1.max_retries := by
      show s.retry_count + 1 + k = s.max_retries
      omega
    have hfail1 : ∀ r : Nat, (attemptOutcome env (setRetry s1 r)).isOk = false := by
      intro r
      have : attemptOutcome env (setRetry s1 r) = attemptOutcome env (setRetry s r) :=
        attemptOutcome_congr env rfl rfl rfl rfl
      rw [this]
      exact hfail r
    obtain ⟨s', hrun, h1, h2, h3, h4, h5, h6⟩ :=
      ih s1 wst ws wc (c + 1) rsd hdeps1 hbudget1 hfail1
    refine ⟨s', ?_, h1, ?_, ?_, h4, h5, ?_⟩
    · show loopExec env (k + 1 + 2) ⟨[s], [], wst, ws, wc, c, rsd⟩ = _
      rw [hround, hrun]
      have : c + 1 + k + 1 = c + (k + 1) + 1 := by omega
      rw [this]
    · rw [h2]
      rfl
    · rw [h3]
      show s.attempts + 1 + k + 1 = s.attempts + (k + 1) + 1
      omega
    · rw [h6]
      have : attemptOutcome env (setRetry s1 s1.max_retries)
          = attemptOutcome env (setRetry s s.max_retries) :=
        attemptOutcome_congr env rfl rfl rfl rfl
      rw [this]

/-- `attemptOutcome` of a step with a registered type and no timeout is the
handler's outcome at the step's current retry count. -/
theorem attemptOutcome_setRetry_registered (env : Env) (s : StepState) (r : Nat)
    (hty : s.step_type ∈ registeredStepTypes) (htos : s.timeout_seconds = none) :
    attemptOutcome env (setRetry s r) = env.outcome s.step_id r := by
  simp [attemptOutcome, setRetry, hty, htos]

/-- `attemptOutcome` of a step with an unregistered type is the
handler-lookup `ValueError`, regardless of everything else. -/
theorem attemptOutcome_setRetry_unregistered (env : Env) (s : StepState) (r : Nat)
    (hty : s.step_type ∉ registeredStepTypes) :
    attemptOutcome env (setRetry s r)
      = .error ("No handler for step type: " ++ s.step_type) := by
  simp [attemptOutcome, setRetry, hty]

/-- `attemptOutcome` of a step with a registered type and a nonzero timeout
shorter than the attempt's duration is the `TimeoutError`. -/
theorem attemptOutcome_setRetry_timeout (env : Env) (s : StepState) (r t : Nat)
    (hty : s.step_type ∈ registeredStepTypes) (htos : s.timeout_seconds = some t)
    (ht : t ≠ 0) (hd : t < env.duration s.step_id r) :
    attemptOutcome env (setRetry s r) = .error "TimeoutError" := by
  simp only [attemptOutcome, setRetry]
  simp [hty, htos, ht, hd]

/-- C2 (amended): the claim holds for the step whose terminal failure the
engine actually processes; stated here for a workflow whose only step is the
always-failing one (the counterexample shows that a sibling dispatched in
the same round is otherwise left `Running`). Such a step with
`maxRetries = N` is dispatched exactly `N + 1` times — once per scheduling
round, never twice within a round — after which its status is `Failed`, its
`retry_count` is `N`, the workflow is `Failed`, and `execute_workflow`
returns `false`; its `result` is never written and the progress callback is
never invoked for it. -/
theorem C2_amended (env : Env) (s : StepState)
    (hdeps : s.dependencies = [])
    (hty : s.step_type ∈ registeredStepTypes)
    (htos : s.timeout_seconds = none)
    (hr0 : s.retry_count = 0)
    (hatt : s.attempts = 0)
    (hfail : ∀ k, (env.outcome s.step_id k).isOk = false) :
    AllFailRun s (executeWorkflow env (s.max_retries + 2) [s]) := by
  have hfail' : ∀ r : Nat, (attemptOutcome env (setRetry s r)).isOk = false := by
    intro r
    rw [attemptOutcome_setRetry_registered env s r hty htos]
    exact hfail r
  obtain ⟨s', hrun, h1, h2, h3, h4, h5, _⟩ :=
    singleton_allfail env s.max_retries s .running (some 0) none 1 false hdeps
      (by omega) hfail'
  exact ⟨_, hrun, rfl, s', rfl, h1, h2, by rw [h3, hatt]; omega, h4, h5⟩

/-- C2 witness: the amended theorem applied to a concrete always-failing
single step with `maxRetries = 1`. -/
theorem C2_witness :
    AllFailRun stepFailA (executeWorkflow envAlwaysFail 3 [stepFailA]) :=
  C2_amended envAlwaysFail stepFailA rfl (by decide) rfl rfl rfl (fun _ => rfl)

/-- C4 (amended): an unknown step kind does raise at dispatch time, before
any handler runs — but the resulting `ValueError` is fed through the generic
per-step failure path, so the step *is* retried like any failing step: it is
dispatched `maxRetries + 1` times (each dispatch raising the same lookup
error) and only then becomes terminally `Failed` with the lookup error
recorded, the workflow `Failed`, and `execute_workflow` returning `false`. -/
theorem C4_amended (env : Env) (s : StepState)
    (hdeps : s.dependencies = [])
    (hty : s.step_type ∉ registeredStepTypes)
    (hr0 : s.retry_count = 0)
    (hatt : s.attempts = 0) :
    UnknownKindRun s (executeWorkflow env (s.max_retries + 2) [s]) := by
  have hfail' : ∀ r : Nat, (attemptOutcome env (setRetry s r)).isOk = false := by
    intro r
    rw [attemptOutcome_setRetry_unregistered env s r hty]
    rfl
  obtain ⟨s', hrun, h1, h2, h3, _, _, h6⟩ :=
    singleton_allfail env s.max_retries s .running (some 0) none 1 false hdeps
      (by omega) hfail'
  refine ⟨_, hrun, rfl, s', rfl, h1, h2, by rw [h3, hatt]; omega, ?_⟩
  rw [h6, attemptOutcome_setRetry_unregistered env s s.max_retries hty]
  rfl

/-- C4 witness: the amended theorem applied to a concrete step of
unregistered kind `"bogus"` with `maxRetries = 1`. -/
theorem C4_witness :
    UnknownKindRun stepBogus (executeWorkflow envAllOk 3 [stepBogus]) :=
  C4_amended envAllOk stepBogus rfl (by decide) rfl rfl

/-- C9 (amended): (1) when `timeoutSeconds` is absent — or set to `0`, which
the source's truthiness test `if step.timeout_seconds:` treats as absent —
the attempt's outcome is the handler's outcome, independent of how long the
attempt runs (not time-bounded); (2) when `timeoutSeconds` is a nonzero `t`
and the attempt is still running after `t` (its duration exceeds `t`), the
attempt's outcome is the `TimeoutError` failure; (3) such timeout failures
are consumed by the ordinary retry policy: a single step whose every attempt
times out is dispatched `maxRetries + 1` times and then terminally `Failed`
with the timeout error recorded. -/
theorem C9_amended :
    (∀ (env env' : Env) (s : StepState), env'.outcome = env.outcome →
      (s.timeout_seconds = none ∨ s.timeout_seconds = some 0) →
      attemptOutcome env' s = attemptOutcome env s) ∧
    (∀ (env : Env) (s : StepState) (t : Nat), s.timeout_seconds = some t →
      t ≠ 0 → t < env.duration s.step_id s.retry_count →
      s.step_type ∈ registeredStepTypes →
      attemptOutcome env s = .error "TimeoutError") ∧
    (∀ (env : Env) (s : StepState) (t : Nat),
      s.dependencies = [] → s.retry_count = 0 → s.attempts = 0 →
      s.step_type ∈ registeredStepTypes → s.timeout_seconds = some t → t ≠ 0 →
      (∀ k, t < env.duration s.step_id k) →
      TimeoutRun s (executeWorkflow env (s.max_retries + 2) [s])) := by
  refine ⟨?_, ?_, ?_⟩
  · intro env env' s hout htos
    rcases htos with h | h
    · simp [attemptOutcome, h, hout]
    · simp [attemptOutcome, h, hout]
  · intro env s t htos ht hd hty
    have : attemptOutcome env (setRetry s s.retry_count) = .error "TimeoutError" :=
      attemptOutcome_setRetry_timeout env s s.retry_count t hty htos ht hd
    rwa [setRetry_self] at this
  · intro env s t hdeps hr0 hatt hty htos ht hdur
    have hfail' : ∀ r : Nat, (attemptOutcome env (setRetry s r)).isOk = false := by
      intro r
      rw [attemptOutcome_setRetry_timeout env s r t hty htos ht (hdur r)]
      rfl
    obtain ⟨s', hrun, h1, h2, h3, _, _, h6⟩ :=
      singleton_allfail env s.max_retries s .running (some 0) none 1 false hdeps
        (by omega) hfail'
    refine ⟨_, hrun, rfl, s', rfl, h1, h2, by rw [h3, hatt]; omega, ?_⟩
    rw [h6, attemptOutcome_setRetry_timeout env s s.max_retries t hty htos ht
      (hdur s.max_retries)]
    rfl

/-- C9 witness: the amended theorem applied to concrete inputs — a zero
timeout is duration-independent, a timeout of 3 with duration 5 produces the
`TimeoutError`, and a single such step is retried to exhaustion. -/
theorem C9_witness :
    attemptOutcome envSlowOkZeroDur stepZeroTimeout
      = attemptOutcome envSlowOk stepZeroTimeout ∧
    attemptOutcome envSlowOk stepShortTimeout = .error "TimeoutError" ∧
    TimeoutRun stepShortTimeout (executeWorkflow envSlowOk 3 [stepShortTimeout]) :=
  ⟨C9_amended.1 envSlowOk envSlowOkZeroDur stepZeroTimeout rfl (Or.inr rfl),
   C9_amended.2.1 envSlowOk stepShortTimeout 3 rfl (by decide) (by decide) (by decide),
   C9_amended.2.2 envSlowOk stepShortTimeout 3 rfl rfl rfl (by decide) rfl
     (by decide) (fun _ => show (3:Nat) < 5 by decide)⟩

/-! ## Ghost-counter invariants -/

theorem GhostInv_mono {cb : Bool} {ex ex' : List StepId} {s : StepState}
    (h : GhostInv cb ex s) (hsub : ∀ i ∈ ex, i ∈ ex') : GhostInv cb ex' s := by
  obtain ⟨g1, g2, g3, g4, g5, g6⟩ := h
  exact ⟨g1, g2, g3, g4, g5, fun hc => hsub _ (g6 hc)⟩

/-- Phase 1 preserves the ghost invariant; every ready step comes out
`Running`, every non-ready step is untouched. -/
theorem stampRound_ghost (cb : Bool) (ex0 : List StepId) :
    ∀ (l : List StepState) (c : Nat),
    (∀ s ∈ l, GhostInv cb ex0 s ∧ EntryOK s) →
    ∀ s' ∈ (stampRound ex0 c l).1,
      GhostInv cb ex0 s' ∧
      (isReady ex0 s' = true → s'.status = .running) ∧
      (isReady ex0 s' = false → EntryOK s') := by
  intro l
  induction l with
  | nil => intro c h s' hs'; simp [stampRound] at hs'
  | cons s rest ih =>
    intro c h s' hs'
    by_cases hr : isReady ex0 s = true
    · rw [stampRound, if_pos hr] at hs'
      rcases List.mem_cons.mp hs' with hhd | htl
      · subst hhd
        obtain ⟨⟨g1, g2, g3, g4, g5, g6⟩, he⟩ := h s (List.mem_cons_self s rest)
        have hnc : s.status ≠ .completed := fun hc =>
          (isReady_iff.mp hr).1 (g6 hc)
        have hpend : s.status = .pending := by
          rcases he with h' | h'
          · exact h'
          · exact absurd h' hnc
        refine ⟨⟨?_, ?_, ?_, ?_, ?_, ?_⟩, fun _ => rfl, ?_⟩
        · show s.started_at_writes + 1 = s.attempts + 1
          omega
        · show s.completed_at_writes = _
          simp [g2, hpend]
        · show s.result_writes = _
          simp [g3, hpend]
        · show s.callback_calls = _
          simp [g4, hpend]
        · show s.error_writes + s.result_writes + 1 = s.attempts + 1
          rw [hpend] at g5
          simp at g5
          omega
        · intro hc
          exact absurd hc (by simp [stampStart])
        · intro hfalse
          rw [isReady_stampStart] at hfalse
          rw [hfalse] at hr
          cases hr
      · exact ih (c + 1) (fun t ht => h t (List.mem_cons_of_mem s ht)) s' htl
    · rw [stampRound, if_neg hr] at hs'
      rcases List.mem_cons.mp hs' with hhd | htl
      · subst hhd
        obtain ⟨hg, he⟩ := h s' (List.mem_cons_self s' rest)
        exact ⟨hg, fun ht => absurd ht hr, fun _ => he⟩
      · exact ih c (fun t ht => h t (List.mem_cons_of_mem s ht)) s' htl

/-- Phase 2 preserves the ghost invariant; the completed set only grows; an
unhalted round restores every step to a round-entry status. -/
theorem procRound_ghost (env : Env) (ex0 : List StepId) :
    ∀ (l : List StepState) (ex : List StepId) (c : Nat),
    (∀ s ∈ l, GhostInv env.cb ex s) →
    (∀ s ∈ l, isReady ex0 s = true → s.status = .running) →
    (∀ s ∈ l, isReady ex0 s = false → EntryOK s) →
    (∀ s' ∈ (procRound env ex0 l ex c).steps,
        GhostInv env.cb (procRound env ex0 l ex c).executed s') ∧
    (∀ i ∈ ex, i ∈ (procRound env ex0 l ex c).executed) ∧
    ((procRound env ex0 l ex c).halted = false →
      ∀ s' ∈ (procRound env ex0 l ex c).steps, EntryOK s') := by
  intro l
  induction l with
  | nil =>
    intro ex c h1 h2 h3
    refine ⟨?_, fun i hi => hi, ?_⟩
    · intro s' hs'; simp [procRound] at hs'
    · intro _ s' hs'; simp [procRound] at hs'
  | cons s rest ih =>
    intro ex c h1 h2 h3
    have h1r := fun t ht => h1 t (List.mem_cons_of_mem s ht)
    have h2r := fun t ht => h2 t (List.mem_cons_of_mem s ht)
    have h3r := fun t ht => h3 t (List.mem_cons_of_mem s ht)
    obtain ⟨g1, g2, g3, g4, g5, g6⟩ := h1 s (List.mem_cons_self s rest)
    by_cases hr : isReady ex0 s = true
    · have hrun : s.status = .running := h2 s (List.mem_cons_self s rest) hr
      cases hout : attemptOutcome env s with
      | error m =>
        by_cases hlt : s.retry_count < s.max_retries
        · -- retry branch
          have hval : procRound env ex0 (s :: rest) ex c =
              ⟨retryStep (failStep m s) :: (procRound env ex0 rest ex c).steps,
               (procRound env ex0 rest ex c).executed,
               (procRound env ex0 rest ex c).clock,
               (procRound env ex0 rest ex c).halted⟩ := by
            rw [procRound, if_pos hr, hout]
            exact if_pos hlt
          obtain ⟨ihg, ihex, ihe⟩ := ih ex c h1r h2r h3r
          rw [hval]
          refine ⟨?_, ihex, ?_⟩
          · intro s' hs'
            rcases List.mem_cons.mp hs' with hhd | htl
            · subst hhd
              refine ⟨g1, ?_, ?_, ?_, ?_, fun hc => absurd hc (by simp [retryStep, failStep])⟩
              · show s.completed_at_writes = _
                simp [g2, hrun, retryStep, failStep]
              · show s.result_writes = _
                simp [g3, hrun, retryStep, failStep]
              · show s.callback_calls = _
                simp [g4, hrun, retryStep, failStep]
              · show s.error_writes + 1 + s.result_writes + _ = s.attempts
                rw [hrun] at g5
                simp at g5
                simp [retryStep, failStep]
                omega
            · exact ihg s' htl
          · intro _ s' hs'
            rcases List.mem_cons.mp hs' with hhd | htl
            · subst hhd
              exact Or.inl (by simp [retryStep, failStep])
            · exact ihe (by assumption) s' htl
        · -- halting branch
          have hval : procRound env ex0 (s :: rest) ex c =
              ⟨failStep m s :: rest, ex, c, true⟩ := by
            rw [procRound, if_pos hr, hout]
            exact if_neg hlt
          rw [hval]
          refine ⟨?_, fun i hi => hi, ?_⟩
          · intro s' hs'
            rcases List.mem_cons.mp hs' with hhd | htl
            · subst hhd
              refine ⟨g1, ?_, ?_, ?_, ?_, fun hc => absurd hc (by simp [failStep])⟩
              · show s.completed_at_writes = _
                simp [g2, hrun, failStep]
              · show s.result_writes = _
                simp [g3, hrun, failStep]
              · show s.callback_calls = _
                simp [g4, hrun, failStep]
              · show s.error_writes + 1 + s.result_writes + _ = s.attempts
                rw [hrun] at g5
                simp at g5
                simp [failStep]
                omega
            · exact h1r s' htl
          · intro hfalse
            cases hfalse
      | ok v =>
        have hval : procRound env ex0 (s :: rest) ex c =
            ⟨completeStep env.cb c v s ::
               (procRound env ex0 rest (addExec s.step_id ex) (c + 1)).steps,
             (procRound env ex0 rest (addExec s.step_id ex) (c + 1)).executed,
             (procRound env ex0 rest (addExec s.step_id ex) (c + 1)).clock,
             (procRound env ex0 rest (addExec s.step_id ex) (c + 1)).halted⟩ := by
          rw [procRound, if_pos hr, hout]
        have h1r' : ∀ t ∈ rest, GhostInv env.cb (addExec s.step_id ex) t :=
          fun t ht => GhostInv_mono (h1r t ht) (subset_addExec s.step_id ex)
        obtain ⟨ihg, ihex, ihe⟩ := ih (addExec s.step_id ex) (c + 1) h1r' h2r h3r
        rw [hval]
        refine ⟨?_, ?_, ?_⟩
        · intro s' hs'
          rcases List.mem_cons.mp hs' with hhd | htl
          · subst hhd
            refine ⟨g1, ?_, ?_, ?_, ?_, ?_⟩
            · show s.completed_at_writes + 1 = _
              simp [completeStep]
              rw [g2, hrun]
              simp
            · show s.result_writes + 1 = _
              simp [completeStep]
              rw [g3, hrun]
              simp
            · show s.callback_calls + _ = _
              simp [completeStep]
              rw [g4, hrun]
              cases env.cb <;> simp
            · show s.error_writes + (s.result_writes + 1) + _ = s.attempts
              rw [hrun] at g5
              simp at g5
              simp [completeStep]
              omega
            · intro _
              exact ihex _ (mem_addExec.mpr (Or.inl rfl))
          · exact ihg s' htl
        · intro i hi
          exact ihex i (subset_addExec s.step_id ex hi)
        · intro hns s' hs'
          rcases List.mem_cons.mp hs' with hhd | htl
          · subst hhd
            exact Or.inr (by simp [completeStep])
          · exact ihe hns s' htl
    · have hval : procRound env ex0 (s :: rest) ex c =
          ⟨s :: (procRound env ex0 rest ex c).steps,
           (procRound env ex0 rest ex c).executed,
           (procRound env ex0 rest ex c).clock,
           (procRound env ex0 rest ex c).halted⟩ := by
        rw [procRound, if_neg hr]
      obtain ⟨ihg, ihex, ihe⟩ := ih ex c h1r h2r h3r
      rw [hval]
      refine ⟨?_, ihex, ?_⟩
      · intro s' hs'
        rcases List.mem_cons.mp hs' with hhd | htl
        · subst hhd
          exact GhostInv_mono (h1 s' (List.mem_cons_self s' rest)) ihex
        · exact ihg s' htl
      · intro hns s' hs'
        rcases List.mem_cons.mp hs' with hhd | htl
        · subst hhd
          exact h3 s' (List.mem_cons_self s' rest) (by simpa using hr)
        · exact ihe hns s' htl

/-- The scheduler loop preserves the ghost invariant from entry to any
returned final state. -/
theorem loopExec_ghost (env : Env) :
    ∀ (fuel : Nat) (st : EngineState),
    (∀ s ∈ st.steps, GhostInv env.cb st.executed s ∧ EntryOK s) →
    ∀ p, loopExec env fuel st = some p →
    ∀ s' ∈ p.2.steps, GhostInv env.cb p.2.executed s' := by
  intro fuel
  induction fuel with
  | zero => intro st h p hrun; cases hrun
  | succ fuel ih =>
    intro st h p hrun
    rw [loopExec] at hrun
    by_cases hlen : st.executed.length < st.steps.length
    · rw [if_pos hlen] at hrun
      by_cases hemp : (st.steps.filter (fun s => isReady st.executed s)).isEmpty = true
      · rw [if_pos hemp] at hrun
        obtain rfl : (false, { st with wstatus := WStatus.failed, raised := true }) = p :=
          Option.some.inj hrun
        exact fun s' hs' => (h s' hs').1
      · rw [if_neg hemp] at hrun
        simp only at hrun
        set p1 := stampRound st.executed st.clock st.steps with hp1
        set r := procRound env st.executed p1.1 st.executed p1.2 with hrr
        have hstamp := stampRound_ghost env.cb st.executed st.steps st.clock h
        have hproc := procRound_ghost env st.executed p1.1 st.executed p1.2
          (fun t ht => (hstamp t ht).1)
          (fun t ht => (hstamp t ht).2.1)
          (fun t ht => (hstamp t ht).2.2)
        obtain ⟨pg, pex, pe⟩ := hproc
        by_cases hhalt : r.halted = true
        · rw [if_pos hhalt] at hrun
          obtain rfl : (false,
              { st with steps := r.steps, executed := r.executed, clock := r.clock,
                        wstatus := if r.halted then WStatus.failed else st.wstatus }) = p :=
            Option.some.inj hrun
          exact fun s' hs' => pg s' hs'
        · rw [if_neg hhalt] at hrun
          refine ih _ ?_ p hrun
          intro s' hs'
          exact ⟨pg s' hs', pe (by simpa using hhalt) s' hs'⟩
    · rw [if_neg hlen] at hrun
      obtain rfl : (true, { st with wstatus := WStatus.completed,
                                    wcompleted := some st.clock,
                                    clock := st.clock + 1 }) = p :=
        Option.some.inj hrun
      exact fun s' hs' => (h s' hs').1

/-- A fresh step satisfies the ghost invariant and a round-entry status. -/
theorem fresh_ghost (cb : Bool) (ex : List StepId) (s : StepState)
    (h : FreshStep s) : GhostInv cb ex s ∧ EntryOK s := by
  obtain ⟨f1, f2, f3, f4, f5, f6, f7, f8, f9, f10, f11, f12⟩ := h
  refine ⟨?_, Or.inl f1⟩
  simp [GhostInv, f1, f7, f8, f9, f10, f11, f12]

/-- C5 (amended): the progress callback, when supplied, is invoked exactly
once per step that reaches `Completed`, and never for a failed attempt
(retried or terminal) nor for a step left unprocessed by an early
`return False`: at the end of any run its per-step invocation count is 1 for
`Completed` steps and 0 otherwise. -/
theorem C5_amended (env : Env) (fuel : Nat) (w : List StepState)
    (hfresh : ∀ s ∈ w, FreshStep s) :
    CallbackOk env.cb (executeWorkflow env fuel w) := by
  intro p hrun s' hs'
  have hinit : ∀ s ∈ (initState w).steps,
      GhostInv env.cb (initState w).executed s ∧ EntryOK s :=
    fun s hs => fresh_ghost env.cb [] s (hfresh s hs)
  exact (loopExec_ghost env fuel (initState w) hinit p hrun s' hs').2.2.2.1

/-- C5 witness: the amended theorem on the fail-then-succeed single step. -/
theorem C5_witness :
    CallbackOk envFailThenOk.cb (executeWorkflow envFailThenOk 3 [stepX]) :=
  C5_amended envFailThenOk 3 [stepX] (by decide)

/-- C6 (amended): `completedAt` is assigned at most once (exactly once for a
`Completed` step, never otherwise), but `startedAt` is assigned once per
dispatch (`started_at_writes = attempts`), so it *is* overwritten whenever a
step is retried after a failure. -/
theorem C6_amended (env : Env) (fuel : Nat) (w : List StepState)
    (hfresh : ∀ s ∈ w, FreshStep s) :
    TimestampWritesOk (executeWorkflow env fuel w) := by
  intro p hrun s' hs'
  have hinit : ∀ s ∈ (initState w).steps,
      GhostInv env.cb (initState w).executed s ∧ EntryOK s :=
    fun s hs => fresh_ghost env.cb [] s (hfresh s hs)
  have h := loopExec_ghost env fuel (initState w) hinit p hrun s' hs'
  exact ⟨h.1, h.2.1⟩

/-- C6 witness: the amended theorem on the two-step chain. -/
theorem C6_witness :
    TimestampWritesOk (executeWorkflow envAllOk 3 [stepChainA, stepChainB]) :=
  C6_amended envAllOk 3 [stepChainA, stepChainB] (by decide)

/-- C7 (amended): each settled attempt assigns exactly one of
`result`/`error` (`error` on a failed attempt, `result` on a successful
one), and `result` is assigned at most once overall; but `error` is never
cleared on retry, so a step that fails and later completes ends with both
set — they are not mutually exclusive across attempts. -/
theorem C7_amended (env : Env) (fuel : Nat) (w : List StepState)
    (hfresh : ∀ s ∈ w, FreshStep s) :
    ResultErrorWritesOk (executeWorkflow env fuel w) := by
  intro p hrun s' hs'
  have hinit : ∀ s ∈ (initState w).steps,
      GhostInv env.cb (initState w).executed s ∧ EntryOK s :=
    fun s hs => fresh_ghost env.cb [] s (hfresh s hs)
  have h := loopExec_ghost env fuel (initState w) hinit p hrun s' hs'
  exact ⟨h.2.2.1, h.2.2.2.2.1⟩

/-- C7 witness: the amended theorem on the always-failing pair. -/
theorem C7_witness :
    ResultErrorWritesOk (executeWorkflow envAlwaysFail 3 [stepFailA, stepFailB]) :=
  C7_amended envAlwaysFail 3 [stepFailA, stepFailB] (by decide)

/-! ## Structural lemmas about rounds -/

theorem stampRound_cons_ready {ex0 : List StepId} {s : StepState}
    (rest : List StepState) (c : Nat) (hr : isReady ex0 s = true) :
    stampRound ex0 c (s :: rest)
      = (stampStart c s :: (stampRound ex0 (c + 1) rest).1,
         (stampRound ex0 (c + 1) rest).2) := by
  rw [stampRound, if_pos hr]

theorem stampRound_cons_not_ready {ex0 : List StepId} {s : StepState}
    (rest : List StepState) (c : Nat) (hr : isReady ex0 s = false) :
    stampRound ex0 c (s :: rest)
      = (s :: (stampRound ex0 c rest).1, (stampRound ex0 c rest).2) := by
  rw [stampRound, if_neg (by simp [hr])]

theorem procRound_cons_not_ready {env : Env} {ex0 : List StepId} {s : StepState}
    (rest : List StepState) (ex : List StepId) (c : Nat)
    (hr : isReady ex0 s = false) :
    procRound env ex0 (s :: rest) ex c
      = ⟨s :: (procRound env ex0 rest ex c).steps,
         (procRound env ex0 rest ex c).executed,
         (procRound env ex0 rest ex c).clock,
         (procRound env ex0 rest ex c).halted⟩ := by
  rw [procRound, if_neg (by simp [hr])]

theorem procRound_cons_retry {env : Env} {ex0 : List StepId} {s : StepState}
    {m : String} (rest : List StepState) (ex : List StepId) (c : Nat)
    (hr : isReady ex0 s = true) (hout : attemptOutcome env s = .error m)
    (hlt : s.retry_count < s.max_retries) :
    procRound env ex0 (s :: rest) ex c
      = ⟨retryStep (failStep m s) :: (procRound env ex0 rest ex c).steps,
         (procRound env ex0 rest ex c).executed,
         (procRound env ex0 rest ex c).clock,
         (procRound env ex0 rest ex c).halted⟩ := by
  rw [procRound, if_pos hr, hout]
  exact if_pos hlt

theorem procRound_cons_halt {env : Env} {ex0 : List StepId} {s : StepState}
    {m : String} (rest : List StepState) (ex : List StepId) (c : Nat)
    (hr : isReady ex0 s = true) (hout : attemptOutcome env s = .error m)
    (hnlt : ¬ s.retry_count < s.max_retries) :
    procRound env ex0 (s :: rest) ex c = ⟨failStep m s :: rest, ex, c, true⟩ := by
  rw [procRound, if_pos hr, hout]
  exact if_neg hnlt

theorem procRound_cons_ok {env : Env} {ex0 : List StepId} {s : StepState}
    {v : Nat} (rest : List StepState) (ex : List StepId) (c : Nat)
    (hr : isReady ex0 s = true) (hout : attemptOutcome env s = .ok v) :
    procRound env ex0 (s :: rest) ex c
      = ⟨completeStep env.cb c v s ::
           (procRound env ex0 rest (addExec s.step_id ex) (c + 1)).steps,
         (procRound env ex0 rest (addExec s.step_id ex) (c + 1)).executed,
         (procRound env ex0 rest (addExec s.step_id ex) (c + 1)).clock,
         (procRound env ex0 rest (addExec s.step_id ex) (c + 1)).halted⟩ := by
  rw [procRound, if_pos hr, hout]

theorem stampRound_map_id (ex0 : List StepId) :
    ∀ (l : List StepState) (c : Nat),
    (stampRound ex0 c l).1.map StepState.step_id = l.map StepState.step_id := by
  intro l
  induction l with
  | nil => intro c; rfl
  | cons s rest ih =>
    intro c
    by_cases hr : isReady ex0 s = true
    · rw [stampRound, if_pos hr]
      simp [ih]
    · rw [stampRound, if_neg hr]
      simp [ih]

theorem procRound_map_id (env : Env) (ex0 : List StepId) :
    ∀ (l : List StepState) (ex : List StepId) (c : Nat),
    (procRound env ex0 l ex c).steps.map StepState.step_id
      = l.map StepState.step_id := by
  intro l
  induction l with
  | nil => intro ex c; rfl
  | cons s rest ih =>
    intro ex c
    by_cases hr : isReady ex0 s = true
    · cases hout : attemptOutcome env s with
      | error m =>
        by_cases hlt : s.retry_count < s.max_retries
        · have hval : procRound env ex0 (s :: rest) ex c
              = ⟨retryStep (failStep m s) :: (procRound env ex0 rest ex c).steps,
                 (procRound env ex0 rest ex c).executed,
                 (procRound env ex0 rest ex c).clock,
                 (procRound env ex0 rest ex c).halted⟩ := by
            rw [procRound, if_pos hr, hout]
            exact if_pos hlt
          rw [hval]
          simp [ih]
        · have hval : procRound env ex0 (s :: rest) ex c
              = ⟨failStep m s :: rest, ex, c, true⟩ := by
            rw [procRound, if_pos hr, hout]
            exact if_neg hlt
          rw [hval]
          simp
      | ok v =>
        have hval : procRound env ex0 (s :: rest) ex c
            = ⟨completeStep env.cb c v s ::
                 (procRound env ex0 rest (addExec s.step_id ex) (c + 1)).steps,
               (procRound env ex0 rest (addExec s.step_id ex) (c + 1)).executed,
               (procRound env ex0 rest (addExec s.step_id ex) (c + 1)).clock,
               (procRound env ex0 rest (addExec s.step_id ex) (c + 1)).halted⟩ := by
          rw [procRound, if_pos hr, hout]
        rw [hval]
        simp [ih]
    · have hval : procRound env ex0 (s :: rest) ex c
          = ⟨s :: (procRound env ex0 rest ex c).steps,
             (procRound env ex0 rest ex c).executed,
             (procRound env ex0 rest ex c).clock,
             (procRound env ex0 rest ex c).halted⟩ := by
        rw [procRound, if_neg hr]
      rw [hval]
      simp [ih]

/-- Ids added to `executed_steps` during a round come from the processed
steps. -/
theorem procRound_executed_mem (env : Env) (ex0 : List StepId) :
    ∀ (l : List StepState) (ex : List StepId) (c : Nat),
    ∀ i ∈ (procRound env ex0 l ex c).executed,
      i ∈ ex ∨ i ∈ l.map StepState.step_id := by
  intro l
  induction l with
  | nil => intro ex c i hi; exact Or.inl hi
  | cons s rest ih =>
    intro ex c i hi
    by_cases hr : isReady ex0 s = true
    · cases hout : attemptOutcome env s with
      | error m =>
        by_cases hlt : s.retry_count < s.max_retries
        · rw [procRound_cons_retry rest ex c hr hout hlt] at hi
          rcases ih ex c i hi with h | h
          · exact Or.inl h
          · exact Or.inr (List.mem_cons_of_mem _ h)
        · rw [procRound_cons_halt rest ex c hr hout hlt] at hi
          exact Or.inl hi
      | ok v =>
        rw [procRound_cons_ok rest ex c hr hout] at hi
        rcases ih (addExec s.step_id ex) (c + 1) i hi with h | h
        · rcases mem_addExec.mp h with h' | h'
          · exact Or.inr (by simp [h'])
          · exact Or.inl h'
        · exact Or.inr (List.mem_cons_of_mem _ h)
    · rw [procRound_cons_not_ready rest ex c (by simpa using hr)] at hi
      rcases ih ex c i hi with h | h
      · exact Or.inl h
      · exact Or.inr (List.mem_cons_of_mem _ h)

/-- Every step of the phase-1 output is either an untouched non-ready input
step or the stamped version of a ready input step. -/
theorem stampRound_mem_rel (ex0 : List StepId) :
    ∀ (l : List StepState) (c : Nat),
    ∀ s' ∈ (stampRound ex0 c l).1,
      ∃ s, s ∈ l ∧ ((isReady ex0 s = false ∧ s' = s) ∨
        (isReady ex0 s = true ∧ ∃ cc, s' = stampStart cc s)) := by
  intro l
  induction l with
  | nil => intro c s' hs'; simp [stampRound] at hs'
  | cons s rest ih =>
    intro c s' hs'
    by_cases hr : isReady ex0 s = true
    · rw [stampRound_cons_ready rest c hr] at hs'
      rcases List.mem_cons.mp hs' with hhd | htl
      · exact ⟨s, List.mem_cons_self s rest, Or.inr ⟨hr, c, hhd⟩⟩
      · obtain ⟨t, ht, hrel⟩ := ih (c + 1) s' htl
        exact ⟨t, List.mem_cons_of_mem s ht, hrel⟩
    · rw [stampRound_cons_not_ready rest c (by simpa using hr)] at hs'
      rcases List.mem_cons.mp hs' with hhd | htl
      · exact ⟨s, List.mem_cons_self s rest,
          Or.inl ⟨by simpa using hr, hhd⟩⟩
      · obtain ⟨t, ht, hrel⟩ := ih c s' htl
        exact ⟨t, List.mem_cons_of_mem s ht, hrel⟩

/-- Every step of the phase-2 output is either an untouched input step or an
updated (retried / terminally failed / completed) ready input step. -/
theorem procRound_mem_rel (env : Env) (ex0 : List StepId) :
    ∀ (l : List StepState) (ex : List StepId) (c : Nat),
    ∀ s' ∈ (procRound env ex0 l ex c).steps,
      ∃ s, s ∈ l ∧ (s' = s ∨ (isReady ex0 s = true ∧
        ((∃ m, s' = retryStep (failStep m s)) ∨ (∃ m, s' = failStep m s) ∨
         (∃ v cc, s' = completeStep env.cb cc v s)))) := by
  intro l
  induction l with
  | nil => intro ex c s' hs'; simp [procRound] at hs'
  | cons s rest ih =>
    intro ex c s' hs'
    by_cases hr : isReady ex0 s = true
    · cases hout : attemptOutcome env s with
      | error m =>
        by_cases hlt : s.retry_count < s.max_retries
        · rw [procRound_cons_retry rest ex c hr hout hlt] at hs'
          rcases List.mem_cons.mp hs' with hhd | htl
          · exact ⟨s, List.mem_cons_self s rest, Or.inr ⟨hr, Or.inl ⟨m, hhd⟩⟩⟩
          · obtain ⟨t, ht, hrel⟩ := ih ex c s' htl
            exact ⟨t, List.mem_cons_of_mem s ht, hrel⟩
        · rw [procRound_cons_halt rest ex c hr hout hlt] at hs'
          rcases List.mem_cons.mp hs' with hhd | htl
          · exact ⟨s, List.mem_cons_self s rest,
              Or.inr ⟨hr, Or.inr (Or.inl ⟨m, hhd⟩)⟩⟩
          · exact ⟨s', List.mem_cons_of_mem s htl, Or.inl rfl⟩
      | ok v =>
        rw [procRound_cons_ok rest ex c hr hout] at hs'
        rcases List.mem_cons.mp hs' with hhd | htl
        · exact ⟨s, List.mem_cons_self s rest,
            Or.inr ⟨hr, Or.inr (Or.inr ⟨v, c, hhd⟩)⟩⟩
        · obtain ⟨t, ht, hrel⟩ := ih (addExec s.step_id ex) (c + 1) s' htl
          exact ⟨t, List.mem_cons_of_mem s ht, hrel⟩
    · rw [procRound_cons_not_ready rest ex c (by simpa using hr)] at hs'
      rcases List.mem_cons.mp hs' with hhd | htl
      · exact ⟨s, List.mem_cons_self s rest, Or.inl hhd⟩
      · obtain ⟨t, ht, hrel⟩ := ih ex c s' htl
        exact ⟨t, List.mem_cons_of_mem s ht, hrel⟩

/-- A step that depends on an id absent from `executed_steps` is untouched
by a full round (it is never ready, hence never dispatched nor processed). -/
theorem round_preserves_blocked (env : Env) (d : StepId) (ex : List StepId)
    (l : List StepState) (c c' : Nat) (exP : List StepId)
    (hnotex : d ∉ ex)
    (hl : ∀ s ∈ l, d ∈ s.dependencies →
      s.status = .pending ∧ s.started_at = none ∧ s.attempts = 0) :
    ∀ s'' ∈ (procRound env ex (stampRound ex c l).1 exP c').steps,
      d ∈ s''.dependencies →
      s''.status = .pending ∧ s''.started_at = none ∧ s''.attempts = 0 := by
  intro s'' hs'' hdep
  obtain ⟨s', hs', hrel'⟩ :=
    procRound_mem_rel env ex (stampRound ex c l).1 exP c' s'' hs''
  have hdep' : d ∈ s'.dependencies := by
    rcases hrel' with rfl | ⟨_, ⟨m, rfl⟩ | ⟨m, rfl⟩ | ⟨v, cc, rfl⟩⟩
    · exact hdep
    · simpa using hdep
    · simpa using hdep
    · simpa using hdep
  have hnr' : isReady ex s' = false := isReady_false_of_dep hdep' hnotex
  have hs''eq : s'' = s' := by
    rcases hrel' with rfl | ⟨hready, _⟩
    · rfl
    · rw [hready] at hnr'
      cases hnr'
  obtain ⟨s, hs, hrel⟩ := stampRound_mem_rel ex l c s' hs'
  have hdep0 : d ∈ s.dependencies := by
    rcases hrel with ⟨_, rfl⟩ | ⟨_, cc, rfl⟩
    · exact hdep'
    · simpa using hdep'
  have hnr : isReady ex s = false := isReady_false_of_dep hdep0 hnotex
  have hs'eq : s' = s := by
    rcases hrel with ⟨_, rfl⟩ | ⟨hready, cc, rfl⟩
    · rfl
    · rw [hready] at hnr
      cases hnr
  rw [hs''eq, hs'eq]
  exact hl s hs hdep0

/-- If the scheduler loop ends by raising on an empty ready set, it returns
`false` with the workflow `Failed`, and every step depending on an id `d`
that names no step of the workflow was never dispatched. -/
theorem loopExec_missing_dep (env : Env) (d : StepId) :
    ∀ (fuel : Nat) (st : EngineState),
    d ∉ st.steps.map StepState.step_id →
    d ∉ st.executed →
    st.raised = false →
    (∀ s ∈ st.steps, d ∈ s.dependencies →
      s.status = .pending ∧ s.started_at = none ∧ s.attempts = 0) →
    ∀ p, loopExec env fuel st = some p → p.2.raised = true →
    p.1 = false ∧ p.2.wstatus = .failed ∧
    ∀ s ∈ p.2.steps, d ∈ s.dependencies →
      s.status = .pending ∧ s.started_at = none ∧ s.attempts = 0 := by
  intro fuel
  induction fuel with
  | zero => intro st _ _ _ _ p hrun; cases hrun
  | succ fuel ih =>
    intro st hids hex hrs hblocked p hrun hp
    rw [loopExec] at hrun
    by_cases hlen : st.executed.length < st.steps.length
    · rw [if_pos hlen] at hrun
      by_cases hemp : (st.steps.filter (fun s => isReady st.executed s)).isEmpty = true
      · rw [if_pos hemp] at hrun
        obtain rfl : (false, { st with wstatus := WStatus.failed, raised := true }) = p :=
          Option.some.inj hrun
        exact ⟨rfl, rfl, hblocked⟩
      · rw [if_neg hemp] at hrun
        simp only at hrun
        by_cases hhalt : (procRound env st.executed
            (stampRound st.executed st.clock st.steps).1 st.executed
            (stampRound st.executed st.clock st.steps).2).halted = true
        · rw [if_pos hhalt] at hrun
          obtain rfl := Option.some.inj hrun
          exact absurd hp (by simp [hrs])
        · rw [if_neg hhalt] at hrun
          set r := procRound env st.executed
            (stampRound st.executed st.clock st.steps).1 st.executed
            (stampRound st.executed st.clock st.steps).2 with hrdef
          refine ih { st with steps := r.steps, executed := r.executed,
                              clock := r.clock,
                              wstatus := if r.halted then WStatus.failed else st.wstatus }
            ?_ ?_ hrs ?_ p hrun hp
          · show d ∉ r.steps.map StepState.step_id
            rw [hrdef, procRound_map_id, stampRound_map_id]
            exact hids
          · show d ∉ r.executed
            intro hd
            rcases procRound_executed_mem env st.executed _ _ _ d hd with h | h
            · exact hex h
            · rw [stampRound_map_id] at h
              exact hids h
          · show ∀ s ∈ r.steps, d ∈ s.dependencies → _
            exact round_preserves_blocked env d st.executed st.steps st.clock
              (stampRound st.executed st.clock st.steps).2 st.executed hex hblocked
    · rw [if_neg hlen] at hrun
      obtain rfl := Option.some.inj hrun
      exact absurd hp (by simp [hrs])

/-- C3: confirmed. In any run of a workflow containing a step whose
`dependencies` reference an id `d` that names no step of the workflow — the
kind of unsatisfiable graph the empty-ready-set check detects — whenever a
scheduling round finds the ready set empty with fewer steps completed than
the workflow contains (recorded by the ghost flag `raised`),
`execute_workflow` raises internally, marks the workflow `Failed`, returns
`false`, and every step depending on `d` never reached `Running`: it is
still `Pending`, its `started_at` was never stamped, and it was never
dispatched. -/
theorem C3_missing_dep (env : Env) (fuel : Nat) (w : List StepState) (d : StepId)
    (hnot : d ∉ w.map StepState.step_id)
    (hused : ∃ s ∈ w, d ∈ s.dependencies)
    (hfresh : ∀ s ∈ w, d ∈ s.dependencies →
      s.status = .pending ∧ s.started_at = none ∧ s.attempts = 0) :
    MissingDepRun d (executeWorkflow env fuel w) := by
  intro p hrun hp
  exact loopExec_missing_dep env d fuel (initState w) hnot (by simp [initState])
    rfl hfresh p hrun hp

/-- C3 witness: a single step `y` depending on the absent id `z`; the first
round's ready set is empty, the exception is raised, and `y` never ran. -/
theorem C3_witness :
    MissingDepRun "z" (executeWorkflow envAllOk 2 [stepMissingDep]) :=
  C3_missing_dep envAllOk 2 [stepMissingDep] "z" (by decide) (by decide) (by decide)

theorem stampRound_length (ex0 : List StepId) (l : List StepState) (c : Nat) :
    (stampRound ex0 c l).1.length = l.length := by
  have h := congrArg List.length (stampRound_map_id ex0 l c)
  simpa using h

theorem stampRound_append (ex0 : List StepId) :
    ∀ (xs ys : List StepState) (c : Nat),
    stampRound ex0 c (xs ++ ys)
      = ((stampRound ex0 c xs).1 ++ (stampRound ex0 (stampRound ex0 c xs).2 ys).1,
         (stampRound ex0 (stampRound ex0 c xs).2 ys).2) := by
  intro xs
  induction xs with
  | nil => intro ys c; simp [stampRound]
  | cons x rest ih =>
    intro ys c
    by_cases hr : isReady ex0 x = true
    · rw [List.cons_append, stampRound_cons_ready (rest ++ ys) c hr,
        stampRound_cons_ready rest c hr, ih]
      simp
    · rw [List.cons_append, stampRound_cons_not_ready (rest ++ ys) c (by simpa using hr),
        stampRound_cons_not_ready rest c (by simpa using hr), ih]
      simp

/-- If the processed list contains a ready step with a failing outcome and an
exhausted retry budget, the round halts (`return False`), every list
position strictly past that step is untouched, and the completed set gains
only ids of steps processed before it. -/
theorem procRound_halts (env : Env) (ex0 : List StepId) :
    ∀ (l1 : List StepState) (s : StepState) (l2 : List StepState)
      (ex : List StepId) (c : Nat),
    isReady ex0 s = true →
    (∃ m, attemptOutcome env s = .error m) →
    s.max_retries ≤ s.retry_count →
    (procRound env ex0 (l1 ++ s :: l2) ex c).halted = true ∧
    (∀ k, l1.length + 1 ≤ k →
      (procRound env ex0 (l1 ++ s :: l2) ex c).steps.get? k
        = (l1 ++ s :: l2).get? k) ∧
    (∀ i ∈ (procRound env ex0 (l1 ++ s :: l2) ex c).executed,
      i ∈ ex ∨ i ∈ l1.map StepState.step_id) := by
  intro l1
  induction l1 with
  | nil =>
    intro s l2 ex c hr hout hxa
    obtain ⟨m, hm⟩ := hout
    rw [List.nil_append, procRound_cons_halt l2 ex c hr hm (by omega)]
    refine ⟨rfl, ?_, fun i hi => Or.inl hi⟩
    intro k hk
    match k, hk with
    | k + 1, _ => simp

  | cons x l1' ih =>
    intro s l2 ex c hr hout hxa
    by_cases hrx : isReady ex0 x = true
    · cases houtx : attemptOutcome env x with
      | error m' =>
        by_cases hlt : x.retry_count < x.max_retries
        · rw [List.cons_append, procRound_cons_retry (l1' ++ s :: l2) ex c hrx houtx hlt]
          obtain ⟨ha, hb, hc2⟩ := ih s l2 ex c hr hout hxa
          refine ⟨ha, ?_, ?_⟩
          · intro k hk
            match k, hk with
            | k + 1, hk =>
              have hk' : l1'.length + 1 ≤ k := by
                simp at hk
                omega
              simpa using hb k hk'
          · intro i hi
            rcases hc2 i hi with h | h
            · exact Or.inl h
            · exact Or.inr (by simp; right; simpa using h)
        · rw [List.cons_append, procRound_cons_halt (l1' ++ s :: l2) ex c hrx houtx hlt]
          refine ⟨rfl, ?_, fun i hi => Or.inl hi⟩
          intro k hk
          match k, hk with
          | k + 1, _ => simp
      | ok v =>
        rw [List.cons_append, procRound_cons_ok (l1' ++ s :: l2) ex c hrx houtx]
        obtain ⟨ha, hb, hc2⟩ := ih s l2 (addExec x.step_id ex) (c + 1) hr hout hxa
        refine ⟨ha, ?_, ?_⟩
        · intro k hk
          match k, hk with
          | k + 1, hk =>
            have hk' : l1'.length + 1 ≤ k := by
              simp at hk
              omega
            simpa using hb k hk'
        · intro i hi
          rcases hc2 i hi with h | h
          · rcases mem_addExec.mp h with h' | h'
            · exact Or.inr (by simp [h'])
            · exact Or.inl h'
          · exact Or.inr (by simp; right; simpa using h)
    · rw [List.cons_append, procRound_cons_not_ready (l1' ++ s :: l2) ex c (by simpa using hrx)]
      obtain ⟨ha, hb, hc2⟩ := ih s l2 ex c hr hout hxa
      refine ⟨ha, ?_, ?_⟩
      · intro k hk
        match k, hk with
        | k + 1, hk =>
          have hk' : l1'.length + 1 ≤ k := by
            simp at hk
            omega
          simpa using hb k hk'
      · intro i hi
        rcases hc2 i hi with h | h
        · exact Or.inl h
        · exact Or.inr (by simp; right; simpa using h)

/-- C10: confirmed. From any scheduler state whose ready set contains a step
`sa` with a failing attempt and an exhausted retry budget, together with a
sibling `sb` placed after it in the step-list (hence ready-set) order whose
attempt settles successfully, the loop returns `false` with the workflow
`Failed`, and `sb` is left `Running` forever: it is never marked
`Completed`, its `result` and `completedAt` are never set, its id is never
added to the completed set, and the progress callback is never invoked for
it (its successfully settled result is discarded). -/
theorem C10_sibling_left_running (env : Env) (st : EngineState) (fuel : Nat)
    (pre mid post : List StepState) (sa sb : StepState)
    (hsteps : st.steps = pre ++ sa :: (mid ++ sb :: post))
    (hnd : (st.steps.map StepState.step_id).Nodup)
    (hlen : st.executed.length < st.steps.length)
    (hra : isReady st.executed sa = true)
    (hfa : (attemptOutcome env sa).isOk = false)
    (hxa : sa.max_retries ≤ sa.retry_count)
    (hrb : isReady st.executed sb = true)
    (hob : (attemptOutcome env sb).isOk = true)
    (hclean : sb.result = none ∧ sb.completed_at = none ∧ sb.callback_calls = 0) :
    SiblingLeftRunning sb.step_id (pre.length + mid.length + 1)
      (loopExec env (fuel + 1) st) := by
  have hsa_mem : sa ∈ st.steps := by
    rw [hsteps]
    exact List.mem_append_right pre (List.mem_cons_self sa _)
  have hempty : ¬ (st.steps.filter (fun s => isReady st.executed s)).isEmpty = true := by
    intro h
    have hmem : sa ∈ st.steps.filter (fun s => isReady st.executed s) :=
      List.mem_filter.mpr ⟨hsa_mem, hra⟩
    rw [List.isEmpty_iff] at h
    rw [h] at hmem
    cases hmem
  -- the stamped list, decomposed around `sa` and `sb`
  have hstamp1 : (stampRound st.executed st.clock st.steps).1
      = (stampRound st.executed st.clock pre).1
        ++ stampStart (stampRound st.executed st.clock pre).2 sa
        :: ((stampRound st.executed ((stampRound st.executed st.clock pre).2 + 1) mid).1
            ++ stampStart (stampRound st.executed
                ((stampRound st.executed st.clock pre).2 + 1) mid).2 sb
            :: (stampRound st.executed ((stampRound st.executed
                ((stampRound st.executed st.clock pre).2 + 1) mid).2 + 1) post).1) := by
    rw [hsteps, stampRound_append]
    simp only
    rw [stampRound_cons_ready _ _ hra]
    simp only
    rw [stampRound_append]
    simp only
    rw [stampRound_cons_ready _ _ hrb]
  have hP1len : (stampRound st.executed st.clock pre).1.length = pre.length :=
    stampRound_length st.executed pre st.clock
  have hM1len : (stampRound st.executed
      ((stampRound st.executed st.clock pre).2 + 1) mid).1.length = mid.length :=
    stampRound_length st.executed mid _
  obtain ⟨m, hm⟩ : ∃ m, attemptOutcome env sa = .error m := by
    cases he : attemptOutcome env sa with
    | error m => exact ⟨m, rfl⟩
    | ok v => rw [he] at hfa; simp [Except.isOk, Except.toBool] at hfa
  have hhalt := procRound_halts env st.executed
    (stampRound st.executed st.clock pre).1
    (stampStart (stampRound st.executed st.clock pre).2 sa)
    ((stampRound st.executed ((stampRound st.executed st.clock pre).2 + 1) mid).1
      ++ stampStart (stampRound st.executed
          ((stampRound st.executed st.clock pre).2 + 1) mid).2 sb
      :: (stampRound st.executed ((stampRound st.executed
          ((stampRound st.executed st.clock pre).2 + 1) mid).2 + 1) post).1)
    st.executed (stampRound st.executed st.clock st.steps).2
    (by rw [isReady_stampStart]; exact hra)
    (by rw [attemptOutcome_stampStart]; exact ⟨m, hm⟩)
    (by rw [stampStart_max_retries, stampStart_retry_count]; exact hxa)
  rw [← hstamp1] at hhalt
  obtain ⟨hhalted, hget, hexec⟩ := hhalt
  have hloop : loopExec env (fuel + 1) st
      = some (false,
          { st with
            steps := (procRound env st.executed
              (stampRound st.executed st.clock st.steps).1 st.executed
              (stampRound st.executed st.clock st.steps).2).steps,
            executed := (procRound env st.executed
              (stampRound st.executed st.clock st.steps).1 st.executed
              (stampRound st.executed st.clock st.steps).2).executed,
            clock := (procRound env st.executed
              (stampRound st.executed st.clock st.steps).1 st.executed
              (stampRound st.executed st.clock st.steps).2).clock,
            wstatus := WStatus.failed }) := by
    rw [loopExec, if_pos hlen, if_neg hempty]
    simp only [hhalted, if_true]
  -- the sibling's final state
  have hpos1 : (stampRound st.executed st.clock pre).1.length + 1
      ≤ pre.length + mid.length + 1 := by
    rw [hP1len]
    omega
  have hgetsb : (procRound env st.executed
      (stampRound st.executed st.clock st.steps).1 st.executed
      (stampRound st.executed st.clock st.steps).2).steps.get?
        (pre.length + mid.length + 1)
      = some (stampStart (stampRound st.executed
          ((stampRound st.executed st.clock pre).2 + 1) mid).2 sb) := by
    rw [hget (pre.length + mid.length + 1) hpos1, hstamp1]
    rw [List.get?_append_right (by omega)]
    rw [hP1len]
    have h1 : pre.length + mid.length + 1 - pre.length = mid.length + 1 := by omega
    rw [h1, List.get?_cons_succ]
    rw [List.get?_append_right (by omega)]
    rw [hM1len]
    have h2 : mid.length - mid.length = 0 := by omega
    rw [h2, List.get?_cons_zero]
  have hsb_not_exec : sb.step_id ∉ (procRound env st.executed
      (stampRound st.executed st.clock st.steps).1 st.executed
      (stampRound st.executed st.clock st.steps).2).executed := by
    intro hmem
    rcases hexec sb.step_id hmem with h | h
    · exact (isReady_iff.mp hrb).1 h
    · rw [stampRound_map_id] at h
      rw [hsteps] at hnd
      rw [List.map_append] at hnd
      rcases List.nodup_append.mp hnd with ⟨_, _, hdisj⟩
      refine hdisj h ?_
      simp
  refine ⟨_, hloop, rfl, _, hgetsb, rfl, rfl, ?_, ?_, ?_, hsb_not_exec⟩
  · rw [stampStart_result]
    exact hclean.1
  · rw [stampStart_completed_at]
    exact hclean.2.1
  · rw [stampStart_callback_calls]
    exact hclean.2.2

/-- C10 witness: workflow `[a, b]`, `a` with `maxRetries = 0` failing, `b`
succeeding; one round returns `false` with `b` left `Running`. -/
theorem C10_witness :
    SiblingLeftRunning "b" 1 (loopExec envC10 1 (initState [stepNoRetry, stepFailB])) :=
  C10_sibling_left_running envC10 (initState [stepNoRetry, stepFailB]) 0
    [] [] [] stepNoRetry stepFailB rfl (by decide) (by decide) (by decide)
    (by decide) (by decide) (by decide) (by decide) ⟨rfl, rfl, rfl⟩

/-! ## The agent-task handler -/

theorem lookup_map_upd (upd : Ctx) (k : String) :
    ∀ b : Ctx,
    (b.map (fun kv =>
      match upd.lookup kv.1 with
      | some u => (kv.1, u)
      | none => kv)).lookup k
      = match b.lookup k with
        | some w => match upd.lookup k with
                    | some u => some u
                    | none => some w
        | none => none := by
  intro b
  induction b with
  | nil => rfl
  | cons p rest ih =>
    obtain ⟨a, w⟩ := p
    cases hka : (k == a) with
    | true =>
      have hk : k = a := by simpa using hka
      subst hk
      cases hu : upd.lookup k with
      | some u => simp [List.lookup, hu]
      | none => simp [List.lookup, hu]
    | false =>
      cases hu : upd.lookup a with
      | some u => simpa [List.lookup, hka, hu] using ih
      | none => simpa [List.lookup, hka, hu] using ih

theorem lookup_ctxUpdate_single_self (b : Ctx) (k : String) (v : CtxVal) :
    (ctxUpdate b [(k, v)]).lookup k = some v := by
  unfold ctxUpdate
  rw [List.lookup_append, lookup_map_upd]
  cases hbk : b.lookup k with
  | some w => simp [List.lookup]
  | none => simp [List.lookup, List.filter, hbk]

theorem lookup_ctxUpdate_single_other (b : Ctx) (k k' : String) (v : CtxVal)
    (hne : k' ≠ k) :
    (ctxUpdate b [(k, v)]).lookup k' = b.lookup k' := by
  have hbeq : (k' == k) = false := by simpa using hne
  unfold ctxUpdate
  rw [List.lookup_append, lookup_map_upd]
  cases hbk : b.lookup k' with
  | some w => simp [List.lookup, hbeq]
  | none =>
    cases hn : (b.lookup k).isNone with
    | true => simp [List.filter, hn, List.lookup, hbeq]
    | false => simp [List.filter, hn, List.lookup]

/-- C8 (amended): `_execute_agent_task` reads `parameters.request`
(default `""`) and `parameters.context` (default `{}`), merges
`Workflow.context` into the latter (workflow entries win), and calls the
agent with the request and the merged context. If the agent reports
`success == false` it raises; otherwise it returns the **whole agent
response object** (not just the data payload) and writes the data payload
into `Workflow.context` under the key `"{step_id}_result"` **only when the
payload is truthy** (non-null and non-empty) — leaving every other context
key unchanged; with a null or empty payload the context is untouched. -/
theorem C8_amended (agent : String → Ctx → AgentResponse) (wctx : Ctx)
    (sid : String) (params : AgentParams) :
    (let resp := agent (params.request.getD "")
        (ctxUpdate (params.context.getD []) wctx)
     (resp.success = false →
        executeAgentTask agent wctx sid params
          = .error ("Agent task failed: " ++ resp.message)) ∧
     (resp.success = true → ∀ l, resp.data = some l → l ≠ [] →
        executeAgentTask agent wctx sid params
          = .ok (resp, ctxUpdate wctx [(sid ++ "_result", CtxVal.dict l)]) ∧
        (ctxUpdate wctx [(sid ++ "_result", CtxVal.dict l)]).lookup
            (sid ++ "_result") = some (CtxVal.dict l) ∧
        (∀ k, k ≠ sid ++ "_result" →
          (ctxUpdate wctx [(sid ++ "_result", CtxVal.dict l)]).lookup k
            = wctx.lookup k)) ∧
     (resp.success = true → (resp.data = none ∨ resp.data = some []) →
        executeAgentTask agent wctx sid params = .ok (resp, wctx))) := by
  refine ⟨?_, ?_, ?_⟩
  · intro hfalse
    simp only [executeAgentTask]
    rw [hfalse]
    simp
  · intro htrue l hdata hl
    refine ⟨?_, lookup_ctxUpdate_single_self wctx (sid ++ "_result") (CtxVal.dict l),
      fun k hk => lookup_ctxUpdate_single_other wctx (sid ++ "_result") k
        (CtxVal.dict l) hk⟩
    simp only [executeAgentTask]
    rw [htrue, hdata]
    cases l with
    | nil => exact absurd rfl hl
    | cons q qs => simp [dataTruthy]
  · intro htrue hdata
    simp only [executeAgentTask]
    rw [htrue]
    rcases hdata with h | h
    · rw [h]
      simp [dataTruthy]
    · rw [h]
      simp [dataTruthy]

/-- C8 witness: the amended theorem at concrete inputs — a successful agent
call with a nonempty payload returns the full response and stores the
payload under `"s1_result"`; a failing agent call raises. -/
theorem C8_witness :
    executeAgentTask agentWithData ctxC8 "s1" paramsC8
      = .ok (⟨true, "done", some [("answer", "42")]⟩,
             ctxUpdate ctxC8 [("s1_result", CtxVal.dict [("answer", "42")])]) ∧
    executeAgentTask agentFailing ctxC8 "s1" paramsC8
      = .error "Agent task failed: nope" :=
  ⟨((C8_amended agentWithData ctxC8 "s1" paramsC8).2.1 rfl
      [("answer", "42")] rfl (by decide)).1,
   (C8_amended agentFailing ctxC8 "s1" paramsC8).1 rfl⟩

/-! ## Acyclic, fully-resolvable, all-successful workflows (C1) -/

theorem exists_min_nat {α : Type} (f : α → Nat) :
    ∀ (l : List α), l ≠ [] → ∃ a ∈ l, ∀ b ∈ l, f a ≤ f b := by
  intro l
  induction l with
  | nil => intro h; exact absurd rfl h
  | cons x rest ih =>
    intro _
    cases rest with
    | nil =>
      refine ⟨x, List.mem_cons_self x [], ?_⟩
      intro b hb
      rcases List.mem_cons.mp hb with rfl | hb
      · exact Nat.le_refl _
      · cases hb
    | cons y ys =>
      obtain ⟨m, hm, hmin⟩ := ih (by simp)
      by_cases hxm : f x ≤ f m
      · refine ⟨x, List.mem_cons_self x _, ?_⟩
        intro b hb
        rcases List.mem_cons.mp hb with rfl | hb
        · exact Nat.le_refl _
        · exact Nat.le_trans hxm (hmin b hb)
      · refine ⟨m, List.mem_cons_of_mem x hm, ?_⟩
        intro b hb
        rcases List.mem_cons.mp hb with rfl | hb
        · omega
        · exact hmin b hb

theorem procRound_nodup (env : Env) (ex0 : List StepId) :
    ∀ (l : List StepState) (ex : List StepId) (c : Nat), ex.Nodup →
    (procRound env ex0 l ex c).executed.Nodup := by
  intro l
  induction l with
  | nil => intro ex c h; exact h
  | cons s rest ih =>
    intro ex c h
    by_cases hr : isReady ex0 s = true
    · cases hout : attemptOutcome env s with
      | error m =>
        by_cases hlt : s.retry_count < s.max_retries
        · rw [procRound_cons_retry rest ex c hr hout hlt]
          exact ih ex c h
        · rw [procRound_cons_halt rest ex c hr hout hlt]
          exact h
      | ok v =>
        rw [procRound_cons_ok rest ex c hr hout]
        exact ih (addExec s.step_id ex) (c + 1) (addExec_nodup h)
    · rw [procRound_cons_not_ready rest ex c (by simpa using hr)]
      exact ih ex c h

/-- With a distinct-id step list, a completed-set at least as large as the
step list covers every step id. -/
theorem exec_covers_ids {ids ex : List StepId}
    (hnd : ids.Nodup) (hexnd : ex.Nodup) (hsub : ∀ i ∈ ex, i ∈ ids)
    (hlen : ids.length ≤ ex.length) : ∀ i ∈ ids, i ∈ ex := by
  have hfin : ex.toFinset = ids.toFinset := by
    refine Finset.eq_of_subset_of_card_le ?_ ?_
    · intro i hi
      rw [List.mem_toFinset] at hi
      rw [List.mem_toFinset]
      exact hsub i hi
    · rw [List.toFinset_card_of_nodup hnd, List.toFinset_card_of_nodup hexnd]
      exact hlen
  intro i hi
  have : i ∈ ex.toFinset := by
    rw [hfin, List.mem_toFinset]
    exact hi
  rwa [List.mem_toFinset] at this

/-- When the while-condition fails, the loop stamps the workflow `Completed`
and returns `true`; with the membership invariant, every step is
`Completed`. -/
theorem loop_exit_all_completed (env : Env) (st : EngineState) (fuel : Nat)
    (hiff : ∀ s ∈ st.steps, (s.status = .completed ↔ s.step_id ∈ st.executed))
    (hnd : (st.steps.map StepState.step_id).Nodup)
    (hexnd : st.executed.Nodup)
    (hexsub : ∀ i ∈ st.executed, i ∈ st.steps.map StepState.step_id)
    (hlen : ¬ st.executed.length < st.steps.length) :
    ∃ p, loopExec env (fuel + 1) st = some p ∧ p.1 = true ∧
      p.2.wstatus = .completed ∧ ∀ s ∈ p.2.steps, s.status = .completed := by
  have hcov : ∀ i ∈ st.steps.map StepState.step_id, i ∈ st.executed :=
    exec_covers_ids hnd hexnd hexsub (by simpa using hlen)
  refine ⟨(true, { st with wstatus := .completed, wcompleted := some st.clock,
                           clock := st.clock + 1 }), ?_, rfl, rfl, ?_⟩
  · rw [loopExec, if_neg hlen]
  · intro s hs
    exact (hiff s hs).mpr (hcov s.step_id (List.mem_map_of_mem StepState.step_id hs))

/-- A round in which every ready step's attempt succeeds: nothing halts,
ready steps are completed in place, non-ready steps are untouched, and the
completed set becomes the old one plus the ready steps' ids. -/
theorem procRound_all_ok (env : Env) (ex0 : List StepId) :
    ∀ (l : List StepState) (ex : List StepId) (c : Nat),
    (∀ s ∈ l, isReady ex0 s = true → ∃ v, attemptOutcome env s = .ok v) →
    (procRound env ex0 l ex c).halted = false ∧
    (∀ s' ∈ (procRound env ex0 l ex c).steps,
      ∃ s, s ∈ l ∧ ((isReady ex0 s = false ∧ s' = s) ∨
        (isReady ex0 s = true ∧ ∃ cc v, s' = completeStep env.cb cc v s))) ∧
    (∀ i, i ∈ (procRound env ex0 l ex c).executed ↔
      (i ∈ ex ∨ ∃ s, s ∈ l ∧ isReady ex0 s = true ∧ s.step_id = i)) := by
  intro l
  induction l with
  | nil =>
    intro ex c _
    refine ⟨rfl, ?_, ?_⟩
    · intro s' hs'; simp [procRound] at hs'
    · intro i
      simp [procRound]
  | cons s rest ih =>
    intro ex c h
    have hrest := fun t ht => h t (List.mem_cons_of_mem s ht)
    by_cases hr : isReady ex0 s = true
    · obtain ⟨v, hv⟩ := h s (List.mem_cons_self s rest) hr
      rw [procRound_cons_ok rest ex c hr hv]
      obtain ⟨iha, ihb, ihc⟩ := ih (addExec s.step_id ex) (c + 1) hrest
      refine ⟨iha, ?_, ?_⟩
      · intro s' hs'
        rcases List.mem_cons.mp hs' with hhd | htl
        · exact ⟨s, List.mem_cons_self s rest, Or.inr ⟨hr, c, v, hhd⟩⟩
        · obtain ⟨t, ht, hrel⟩ := ihb s' htl
          exact ⟨t, List.mem_cons_of_mem s ht, hrel⟩
      · intro i
        rw [ihc i]
        constructor
        · rintro (h' | ⟨t, ht, hready, rfl⟩)
          · rcases mem_addExec.mp h' with rfl | h''
            · exact Or.inr ⟨s, List.mem_cons_self s rest, hr, rfl⟩
            · exact Or.inl h''
          · exact Or.inr ⟨t, List.mem_cons_of_mem s ht, hready, rfl⟩
        · rintro (h' | ⟨t, ht, hready, rfl⟩)
          · exact Or.inl (subset_addExec s.step_id ex h')
          · rcases List.mem_cons.mp ht with rfl | ht'
            · exact Or.inl (mem_addExec.mpr (Or.inl rfl))
            · exact Or.inr ⟨t, ht', hready, rfl⟩
    · rw [procRound_cons_not_ready rest ex c (by simpa using hr)]
      obtain ⟨iha, ihb, ihc⟩ := ih ex c hrest
      refine ⟨iha, ?_, ?_⟩
      · intro s' hs'
        rcases List.mem_cons.mp hs' with hhd | htl
        · exact ⟨s, List.mem_cons_self s rest, Or.inl ⟨by simpa using hr, hhd⟩⟩
        · obtain ⟨t, ht, hrel⟩ := ihb s' htl
          exact ⟨t, List.mem_cons_of_mem s ht, hrel⟩
      · intro i
        rw [ihc i]
        constructor
        · rintro (h' | ⟨t, ht, hready, rfl⟩)
          · exact Or.inl h'
          · exact Or.inr ⟨t, List.mem_cons_of_mem s ht, hready, rfl⟩
        · rintro (h' | ⟨t, ht, hready, rfl⟩)
          · exact Or.inl h'
          · rcases List.mem_cons.mp ht with rfl | ht'
            · rw [hready] at hr
              cases hr rfl
            · exact Or.inr ⟨t, ht', hready, rfl⟩

/-- With a fully-resolvable, ranked (acyclic) dependency graph, an
uncompleted workflow always has a ready step: the uncompleted step of
minimal rank. -/
theorem ready_exists (w : List StepState) (rank : StepId → Nat)
    (hnd : (w.map StepState.step_id).Nodup)
    (hres : ∀ s ∈ w, ∀ d ∈ s.dependencies, d ∈ w.map StepState.step_id)
    (hrank : ∀ s ∈ w, ∀ d ∈ s.dependencies, rank d < rank s.step_id)
    (cur : List StepState) (ex : List StepId)
    (hmap : cur.map StepState.step_id = w.map StepState.step_id)
    (hsrc : ∀ s ∈ cur, Sourced w s)
    (hexnd : ex.Nodup)
    (hlen : ex.length < cur.length) :
    ∃ s ∈ cur, isReady ex s = true := by
  have hex_ne : ∃ s0 ∈ cur, s0.step_id ∉ ex := by
    by_contra hall
    push_neg at hall
    have hsub2 : ∀ i ∈ w.map StepState.step_id, i ∈ ex := by
      intro i hi
      rw [← hmap] at hi
      obtain ⟨s0, hs0, rfl⟩ := List.mem_map.mp hi
      exact hall s0 hs0
    have hfins : (w.map StepState.step_id).toFinset ⊆ ex.toFinset := by
      intro i hi
      rw [List.mem_toFinset] at hi
      rw [List.mem_toFinset]
      exact hsub2 i hi
    have hcard := Finset.card_le_card hfins
    rw [List.toFinset_card_of_nodup hnd, List.toFinset_card_of_nodup hexnd] at hcard
    have hcl : cur.length = (w.map StepState.step_id).length := by
      rw [← hmap, List.length_map]
    omega
  obtain ⟨sm, hsm_mem, hsm_min⟩ :=
    exists_min_nat (fun s => rank s.step_id)
      (cur.filter (fun s => !(ex.contains s.step_id)))
      (by
        obtain ⟨s0, hs0, hnot⟩ := hex_ne
        intro hnil
        have hmem : s0 ∈ cur.filter (fun s => !(ex.contains s.step_id)) :=
          List.mem_filter.mpr ⟨hs0, by simpa using hnot⟩
        rw [hnil] at hmem
        cases hmem)
  have hsm_cur : sm ∈ cur := (List.mem_filter.mp hsm_mem).1
  have hsm_not : sm.step_id ∉ ex := by
    have h := (List.mem_filter.mp hsm_mem).2
    simpa using h
  refine ⟨sm, hsm_cur, isReady_iff.mpr ⟨hsm_not, ?_⟩⟩
  intro d hd
  obtain ⟨s0, hs0w, hid, hdeps, _, _, _⟩ := hsrc sm hsm_cur
  rw [hdeps] at hd
  by_contra hdex
  have hdw : d ∈ w.map StepState.step_id := hres s0 hs0w d hd
  obtain ⟨t, htcur, htid⟩ : ∃ t ∈ cur, t.step_id = d := by
    rw [← hmap] at hdw
    obtain ⟨t, ht, hid'⟩ := List.mem_map.mp hdw
    exact ⟨t, ht, hid'⟩
  have htcand : t ∈ cur.filter (fun s => !(ex.contains s.step_id)) :=
    List.mem_filter.mpr ⟨htcur, by simp [htid, hdex]⟩
  have hmin := hsm_min t htcand
  have hlt := hrank s0 hs0w d hd
  rw [← hid] at hlt
  rw [htid] at hmin
  omega

/-- Main induction for C1: with every handler succeeding, each round
completes all ready steps, the completed set strictly grows, and the loop
reaches the all-completed exit within `steps.length` rounds. -/
theorem loopExec_all_ok (env : Env) (w : List StepState) (rank : StepId → Nat)
    (hnd : (w.map StepState.step_id).Nodup)
    (hres : ∀ s ∈ w, ∀ d ∈ s.dependencies, d ∈ w.map StepState.step_id)
    (hrank : ∀ s ∈ w, ∀ d ∈ s.dependencies, rank d < rank s.step_id)
    (hok : ∀ s ∈ w, (attemptOutcome env s).isOk = true) :
    ∀ (n : Nat) (st : EngineState),
    st.steps.map StepState.step_id = w.map StepState.step_id →
    (∀ s ∈ st.steps, Sourced w s) →
    (∀ s ∈ st.steps, (s.status = .completed ↔ s.step_id ∈ st.executed)) →
    st.executed.Nodup →
    (∀ i ∈ st.executed, i ∈ w.map StepState.step_id) →
    st.steps.length - st.executed.length ≤ n →
    ∃ p, loopExec env (n + 1) st = some p ∧ p.1 = true ∧
      p.2.wstatus = .completed ∧ ∀ s ∈ p.2.steps, s.status = .completed := by
  intro n
  induction n with
  | zero =>
    intro st hmap hsrc hiff hexnd hexsub hmeas
    exact loop_exit_all_completed env st 0 hiff (by rw [hmap]; exact hnd) hexnd
      (fun i hi => by rw [hmap]; exact hexsub i hi) (by omega)
  | succ n ihn =>
    intro st hmap hsrc hiff hexnd hexsub hmeas
    by_cases hlen : st.executed.length < st.steps.length
    · -- a round happens
      have hinj : ∀ x ∈ st.steps, ∀ y ∈ st.steps, x.step_id = y.step_id → x = y := by
        have hnd' : (st.steps.map StepState.step_id).Nodup := by
          rw [hmap]; exact hnd
        exact fun x hx y hy hxy => List.inj_on_of_nodup_map hnd' hx hy hxy
      obtain ⟨sm, hsm_cur, hsm_ready⟩ := ready_exists w rank hnd hres hrank
        st.steps st.executed hmap hsrc hexnd hlen
      have hempty : ¬ (st.steps.filter (fun s => isReady st.executed s)).isEmpty = true := by
        intro h
        rw [List.isEmpty_iff] at h
        have hmem : sm ∈ st.steps.filter (fun s => isReady st.executed s) :=
          List.mem_filter.mpr ⟨hsm_cur, hsm_ready⟩
        rw [h] at hmem
        cases hmem
      -- every ready stamped step's attempt succeeds
      have hallok : ∀ t ∈ (stampRound st.executed st.clock st.steps).1,
          isReady st.executed t = true → ∃ v, attemptOutcome env t = .ok v := by
        intro t ht _
        obtain ⟨s, hsmem, hrel⟩ := stampRound_mem_rel st.executed st.steps st.clock t ht
        have houteq : attemptOutcome env t = attemptOutcome env s := by
          rcases hrel with ⟨_, rfl⟩ | ⟨_, cc, rfl⟩
          · rfl
          · exact attemptOutcome_stampStart env cc s
        obtain ⟨s0, hs0, hid, hdeps, hty, htos, hrc⟩ := hsrc s hsmem
        have hcong : attemptOutcome env s = attemptOutcome env s0 :=
          attemptOutcome_congr env hty htos hid hrc
        rw [houteq, hcong]
        have hok0 := hok s0 hs0
        cases he : attemptOutcome env s0 with
        | ok v => exact ⟨v, rfl⟩
        | error m => rw [he] at hok0; simp [Except.isOk, Except.toBool] at hok0
      obtain ⟨pa, pb, pc⟩ := procRound_all_ok env st.executed
        (stampRound st.executed st.clock st.steps).1 st.executed
        (stampRound st.executed st.clock st.steps).2 hallok
      -- a stamped counterpart of any current step with the same id and
      -- readiness
      have hstamped_of_id : ∀ s ∈ st.steps, ∃ t,
          t ∈ (stampRound st.executed st.clock st.steps).1 ∧
          t.step_id = s.step_id ∧
          isReady st.executed t = isReady st.executed s := by
        intro s hsmem
        have hidmem : s.step_id ∈ (stampRound st.executed st.clock st.steps).1.map
            StepState.step_id := by
          rw [stampRound_map_id]
          exact List.mem_map_of_mem StepState.step_id hsmem
        obtain ⟨t, ht, htid⟩ := List.mem_map.mp hidmem
        obtain ⟨u, humem, hurel⟩ :=
          stampRound_mem_rel st.executed st.steps st.clock t ht
        have huid : t.step_id = u.step_id := by
          rcases hurel with ⟨_, rfl⟩ | ⟨_, cc, rfl⟩ <;> simp
        have hueq : u = s := hinj u humem s hsmem (by rw [← huid, htid])
        subst hueq
        have hready_eq : isReady st.executed t = isReady st.executed u := by
          rcases hurel with ⟨_, rfl⟩ | ⟨_, cc, rfl⟩ <;> simp
        exact ⟨t, ht, htid, hready_eq⟩
      -- invariants for the next state
      have hmap' : (procRound env st.executed
          (stampRound st.executed st.clock st.steps).1 st.executed
          (stampRound st.executed st.clock st.steps).2).steps.map StepState.step_id
          = w.map StepState.step_id := by
        rw [procRound_map_id, stampRound_map_id, hmap]
      have hsteps_len' : (procRound env st.executed
          (stampRound st.executed st.clock st.steps).1 st.executed
          (stampRound st.executed st.clock st.steps).2).steps.length
          = st.steps.length := by
        have h1 := congrArg List.length hmap'
        have h2 := congrArg List.length hmap
        simp only [List.length_map] at h1 h2
        omega
      -- composed source relation
      have hcomp : ∀ s'' ∈ (procRound env st.executed
          (stampRound st.executed st.clock st.steps).1 st.executed
          (stampRound st.executed st.clock st.steps).2).steps,
          ∃ s ∈ st.steps,
            s''.step_id = s.step_id ∧ s''.dependencies = s.dependencies ∧
            s''.step_type = s.step_type ∧ s''.timeout_seconds = s.timeout_seconds ∧
            s''.retry_count = s.retry_count ∧
            ((isReady st.executed s = false ∧ s'' = s) ∨
             (isReady st.executed s = true ∧ s''.status = .completed)) := by
        intro s'' hs''
        obtain ⟨t, ht, hrelb⟩ := pb s'' hs''
        obtain ⟨s, hsmem, hrela⟩ := stampRound_mem_rel st.executed st.steps st.clock t ht
        rcases hrela with ⟨hnr, heq1⟩ | ⟨hr, cc, heq1⟩
        · rcases hrelb with ⟨_, heq2⟩ | ⟨hr', _⟩
          · have heq : s'' = s := heq2.trans heq1
            exact ⟨s, hsmem, by rw [heq], by rw [heq], by rw [heq], by rw [heq],
              by rw [heq], Or.inl ⟨hnr, heq⟩⟩
          · rw [heq1] at hr'
            rw [hr'] at hnr
            cases hnr
        · rcases hrelb with ⟨hnr', heq2⟩ | ⟨_, cc2, v, heq2⟩
          · rw [heq1, isReady_stampStart] at hnr'
            rw [hnr'] at hr
            cases hr
          · rw [heq1] at heq2
            exact ⟨s, hsmem, by rw [heq2]; simp, by rw [heq2]; simp,
              by rw [heq2]; simp, by rw [heq2]; simp, by rw [heq2]; simp,
              Or.inr ⟨hr, by rw [heq2]; simp⟩⟩
      have hsrc' : ∀ s'' ∈ (procRound env st.executed
          (stampRound st.executed st.clock st.steps).1 st.executed
          (stampRound st.executed st.clock st.steps).2).steps, Sourced w s'' := by
        intro s'' hs''
        obtain ⟨s, hsmem, h1, h2, h3, h4, h5, _⟩ := hcomp s'' hs''
        obtain ⟨s0, hs0, g1, g2, g3, g4, g5⟩ := hsrc s hsmem
        exact ⟨s0, hs0, by rw [h1, g1], by rw [h2, g2], by rw [h3, g3],
          by rw [h4, g4], by rw [h5, g5]⟩
      have hiff' : ∀ s'' ∈ (procRound env st.executed
          (stampRound st.executed st.clock st.steps).1 st.executed
          (stampRound st.executed st.clock st.steps).2).steps,
          (s''.status = .completed ↔ s''.step_id ∈ (procRound env st.executed
            (stampRound st.executed st.clock st.steps).1 st.executed
            (stampRound st.executed st.clock st.steps).2).executed) := by
        intro s'' hs''
        obtain ⟨s, hsmem, hid, _, _, _, _, hcase⟩ := hcomp s'' hs''
        rcases hcase with ⟨hnr, heq⟩ | ⟨hr, hcompl⟩
        · rw [heq]
          constructor
          · intro hc
            exact (pc s.step_id).mpr (Or.inl ((hiff s hsmem).mp hc))
          · intro hc
            rcases (pc s.step_id).mp hc with h' | ⟨t', ht', hready', hidt'⟩
            · exact (hiff s hsmem).mpr h'
            · obtain ⟨u, humem, hurel⟩ :=
                stampRound_mem_rel st.executed st.steps st.clock t' ht'
              have huid : t'.step_id = u.step_id := by
                rcases hurel with ⟨_, rfl⟩ | ⟨_, cc, rfl⟩ <;> simp
              have hready_u : isReady st.executed t' = isReady st.executed u := by
                rcases hurel with ⟨_, rfl⟩ | ⟨_, cc, rfl⟩ <;> simp
              have hueq : u = s := hinj u humem s hsmem (by rw [← huid, hidt'])
              subst hueq
              rw [hready_u] at hready'
              rw [hready'] at hnr
              cases hnr
        · constructor
          · intro _
            refine (pc s''.step_id).mpr (Or.inr ?_)
            obtain ⟨t, ht, htid, htr⟩ := hstamped_of_id s hsmem
            refine ⟨t, ht, by rw [htr]; exact hr, by rw [htid, hid]⟩
          · intro _
            exact hcompl
      have hexnd' : (procRound env st.executed
          (stampRound st.executed st.clock st.steps).1 st.executed
          (stampRound st.executed st.clock st.steps).2).executed.Nodup :=
        procRound_nodup env st.executed _ st.executed _ hexnd
      have hexsub' : ∀ i ∈ (procRound env st.executed
          (stampRound st.executed st.clock st.steps).1 st.executed
          (stampRound st.executed st.clock st.steps).2).executed,
          i ∈ w.map StepState.step_id := by
        intro i hi
        rcases (pc i).mp hi with h' | ⟨t, ht, _, rfl⟩
        · exact hexsub i h'
        · have : t.step_id ∈ (stampRound st.executed st.clock st.steps).1.map
              StepState.step_id := List.mem_map_of_mem StepState.step_id ht
          rw [stampRound_map_id, hmap] at this
          exact this
      -- the completed set strictly grows (`sm` completes this round)
      have hsm_in : sm.step_id ∈ (procRound env st.executed
          (stampRound st.executed st.clock st.steps).1 st.executed
          (stampRound st.executed st.clock st.steps).2).executed := by
        obtain ⟨t, ht, htid, htr⟩ := hstamped_of_id sm hsm_cur
        exact (pc sm.step_id).mpr (Or.inr ⟨t, ht, by rw [htr]; exact hsm_ready, htid⟩)
      have hsm_old : sm.step_id ∉ st.executed := (isReady_iff.mp hsm_ready).1
      have hgrow : st.executed.length + 1 ≤ (procRound env st.executed
          (stampRound st.executed st.clock st.steps).1 st.executed
          (stampRound st.executed st.clock st.steps).2).executed.length := by
        have hsubf : insert sm.step_id st.executed.toFinset ⊆
            (procRound env st.executed
              (stampRound st.executed st.clock st.steps).1 st.executed
              (stampRound st.executed st.clock st.steps).2).executed.toFinset := by
          intro i hi
          rcases Finset.mem_insert.mp hi with rfl | hi'
          · rw [List.mem_toFinset]
            exact hsm_in
          · rw [List.mem_toFinset] at hi'
            rw [List.mem_toFinset]
            exact (pc i).mpr (Or.inl hi')
        have hcard := Finset.card_le_card hsubf
        rw [Finset.card_insert_of_not_mem (by
            rw [List.mem_toFinset]; exact hsm_old)] at hcard
        rw [List.toFinset_card_of_nodup hexnd,
          List.toFinset_card_of_nodup hexnd'] at hcard
        exact hcard
      -- recurse
      obtain ⟨p, hp, hp1, hp2, hp3⟩ := ihn
        { st with
          steps := (procRound env st.executed
            (stampRound st.executed st.clock st.steps).1 st.executed
            (stampRound st.executed st.clock st.steps).2).steps,
          executed := (procRound env st.executed
            (stampRound st.executed st.clock st.steps).1 st.executed
            (stampRound st.executed st.clock st.steps).2).executed,
          clock := (procRound env st.executed
            (stampRound st.executed st.clock st.steps).1 st.executed
            (stampRound st.executed st.clock st.steps).2).clock,
          wstatus := st.wstatus }
        hmap' hsrc' hiff' hexnd' hexsub' (by
          show (procRound env st.executed
            (stampRound st.executed st.clock st.steps).1 st.executed
            (stampRound st.executed st.clock st.steps).2).steps.length
            - (procRound env st.executed
            (stampRound st.executed st.clock st.steps).1 st.executed
            (stampRound st.executed st.clock st.steps).2).executed.length ≤ n
          omega)
      refine ⟨p, ?_, hp1, hp2, hp3⟩
      rw [loopExec, if_pos hlen, if_neg hempty]
      simp only [pa, Bool.false_eq_true, if_false]
      exact hp
    · exact loop_exit_all_completed env st (n + 1) hiff (by rw [hmap]; exact hnd)
        hexnd (fun i hi => by rw [hmap]; exact hexsub i hi) hlen

/-- C1: confirmed. For a workflow whose steps have distinct ids, whose
dependency graph is fully resolvable (every dependency names a step) and
acyclic (witnessed by a rank function decreasing along dependencies), and
whose step handlers all succeed on dispatch, `execute_workflow` terminates
within `length + 1` scheduling rounds, returns `true`, leaves every step
`Completed`, and marks the workflow `Completed`. -/
theorem C1_acyclic_all_ok (env : Env) (w : List StepState) (rank : StepId → Nat)
    (hnd : (w.map StepState.step_id).Nodup)
    (hres : ∀ s ∈ w, ∀ d ∈ s.dependencies, d ∈ w.map StepState.step_id)
    (hrank : ∀ s ∈ w, ∀ d ∈ s.dependencies, rank d < rank s.step_id)
    (hok : ∀ s ∈ w, (attemptOutcome env s).isOk = true)
    (hpend : ∀ s ∈ w, s.status = .pending) :
    CompletesOk (executeWorkflow env (w.length + 1) w) := by
  obtain ⟨p, hp, h1, h2, h3⟩ := loopExec_all_ok env w rank hnd hres hrank hok
    w.length (initState w) rfl
    (fun s hs => ⟨s, hs, rfl, rfl, rfl, rfl, rfl⟩)
    (by
      intro s hs
      constructor
      · intro hc
        rw [hpend s hs] at hc
        cases hc
      · intro hc
        cases hc)
    List.nodup_nil
    (by intro i hi; cases hi)
    (by simp [initState])
  exact ⟨p, hp, h1, h2, h3⟩

/-- C1 witness: the chain `a ← b` with all-successful handlers completes. -/
theorem C1_witness :
    CompletesOk (executeWorkflow envAllOk 3 [stepChainA, stepChainB]) :=
  C1_acyclic_all_ok envAllOk [stepChainA, stepChainB] rankAB (by decide)
    (by decide) (by decide) (by decide) (by decide)

end Gentify
